import Mathlib

/-!
Verification of the Vikunja task-management backend (checklist_vikunja).

This file shallowly embeds the parts of the Go sources relevant to the
sharing-rights checks, link-share authentication, the CalDAV codec and the
structure importer, and proves the specification claims about them.

Conventions of the embedding:
* Go `time.Time` values are modelled at second precision as Gregorian UTC
  component tuples (`DateTime`); the Go zero value `time.Time{}` is
  `DateTime.zero` (0001-01-01T00:00:00Z) and `Unix()` is `DateTime.toUnix`.
* Machine integers (`int64`) are modelled as `Int`; none of the verified
  code paths can overflow 64 bits on the inputs considered.
* Fallible Go functions returning `error` are modelled with `Option`
  (`none` = nil error) or `Except`.
* External collaborators (the xorm persistence session, bcrypt, sha256,
  the event dispatcher) are modelled as explicit state or as function
  parameters, as described at each definition.
-/

namespace Vikunja

/-! ## Time model

Go `time.Time` instants are in bijection with their UTC Gregorian component
tuples (at second precision, which is all the CalDAV layer ever serializes).
We therefore model an instant as the component tuple. -/

/-- A UTC wall-clock time at second precision: the image of a Go `time.Time`
under `In(time.UTC)` with sub-second digits dropped. -/
structure DateTime where
  year : Nat
  month : Nat
  day : Nat
  hour : Nat
  minute : Nat
  second : Nat
deriving DecidableEq, Repr

/-- The Go zero value `time.Time{}`: January 1, year 1, 00:00:00 UTC. -/
def DateTime.zero : DateTime := ⟨1, 1, 1, 0, 0, 0⟩

/-- Gregorian leap-year rule (as in Go's `isLeap`). -/
def isLeapYear (y : Nat) : Bool := (y % 4 == 0) && (y % 100 != 0 || y % 400 == 0)

/-- Number of days of a month, as used by Go's `time` package (`daysIn`). -/
def daysInMonth (y m : Nat) : Nat :=
  match m with
  | 1 => 31
  | 2 => if isLeapYear y then 29 else 28
  | 3 => 31
  | 4 => 30
  | 5 => 31
  | 6 => 30
  | 7 => 31
  | 8 => 31
  | 9 => 30
  | 10 => 31
  | 11 => 30
  | _ => 31

/-- A component tuple that denotes an actual instant (the image of some
`time.Time`), restricted to four-digit years so that Go's `Format` layout
`20060102T150405` prints it faithfully. -/
def DateTime.Valid (t : DateTime) : Prop :=
  t.year ≤ 9999 ∧ 1 ≤ t.month ∧ t.month ≤ 12 ∧ 1 ≤ t.day ∧
    t.day ≤ daysInMonth t.year t.month ∧ t.hour < 24 ∧ t.minute < 60 ∧ t.second < 60

instance (t : DateTime) : Decidable t.Valid := by
  unfold DateTime.Valid; infer_instance

/-- Days between a civil date and 1970-01-01 (Hinnant's `days_from_civil`;
the calendar arithmetic underlying Go's `Time.Unix`). Divisions are
truncated, as in the original formulation; all inner quotients are of
non-negative values for the years that arise here. -/
def daysFromCivil (y m d : Int) : Int :=
  let y2 : Int := if m ≤ 2 then y - 1 else y
  let era : Int := (if 0 ≤ y2 then y2 else y2 - 399) / 400
  let yoe : Int := y2 - era * 400
  let mp : Int := if 2 < m then m - 3 else m + 9
  let doy : Int := (153 * mp + 2) / 5 + d - 1
  let doe : Int := yoe * 365 + yoe / 4 - yoe / 100 + doy
  era * 146097 + doe - 719468

/-- Inverse of `daysFromCivil` (Hinnant's `civil_from_days`): the civil
date of a day count relative to 1970-01-01. -/
def civilFromDays (z0 : Int) : Int × Int × Int :=
  let z : Int := z0 + 719468
  let era : Int := (if 0 ≤ z then z else z - 146096) / 146097
  let doe : Int := z - era * 146097
  let yoe : Int := (doe - doe / 1460 + doe / 36524 - doe / 146096) / 365
  let y : Int := yoe + era * 400
  let doy : Int := doe - (365 * yoe + yoe / 4 - yoe / 100)
  let mp : Int := (5 * doy + 2) / 153
  let d : Int := doy - (153 * mp + 2) / 5 + 1
  let m : Int := if mp < 10 then mp + 3 else mp - 9
  (if m ≤ 2 then y + 1 else y, m, d)

/-- Go's `Time.Unix()`: seconds since 1970-01-01T00:00:00Z. -/
def DateTime.toUnix (t : DateTime) : Int :=
  86400 * daysFromCivil t.year t.month t.day
    + 3600 * t.hour + 60 * t.minute + t.second

/-- The instant `s` seconds after the Unix epoch, as a component tuple
(Go's `time.Unix(s, 0).UTC()`, second precision, years clamped to `Nat`). -/
def DateTime.ofUnix (s : Int) : DateTime :=
  let days : Int := Int.fdiv s 86400
  let rem : Int := s - 86400 * days
  let c := civilFromDays days
  ⟨c.1.toNat, c.2.1.toNat, c.2.2.toNat,
    (rem / 3600).toNat, (rem / 60 % 60).toNat, (rem % 60).toNat⟩

/-- Go's `Time.Add` restricted to whole seconds (`d` in seconds). -/
def DateTime.addSeconds (t : DateTime) (d : Int) : DateTime :=
  DateTime.ofUnix (t.toUnix + d)

/-! ### Formatting (Go `Format` with the caldav layouts) -/

/-- The ASCII digit character of `n % 10`. -/
def digitChar (n : Nat) : Char := Char.ofNat (48 + n % 10)

/-- Two-digit zero-padded decimal (for `n < 100`). -/
def pad2 (n : Nat) : List Char := [digitChar (n / 10), digitChar n]

/-- Four-digit zero-padded decimal (for `n < 10000`). -/
def pad4 (n : Nat) : List Char :=
  [digitChar (n / 1000), digitChar (n / 100), digitChar (n / 10), digitChar n]

/-- `t.Format("20060102T150405")` — the `DateFormat` layout of
`pkg/caldav/caldav.go`, without zone suffix. -/
def formatDateTimeChars (t : DateTime) : List Char :=
  pad4 t.year ++ pad2 t.month ++ pad2 t.day ++ 'T' ::
    (pad2 t.hour ++ pad2 t.minute ++ pad2 t.second)

/-- `makeCalDavTimeFromTimeStamp` from `pkg/caldav/caldav.go`:
`ts.In(time.UTC).Format(DateFormat) + "Z"`. -/
def makeCalDavTimeFromTimeStamp (t : DateTime) : String :=
  String.mk (formatDateTimeChars t ++ ['Z'])

/-- The layout `20060102T150405` as a plain string (no `Z`). -/
def formatDateTimeNoZ (t : DateTime) : String :=
  String.mk (formatDateTimeChars t)

/-- The date-only layout `20060102`. -/
def formatDateOnly (t : DateTime) : String :=
  String.mk (pad4 t.year ++ pad2 t.month ++ pad2 t.day)

/-! ### Parsing (Go `time.Parse` with the three caldav layouts) -/

/-- Decimal value of an ASCII digit character. -/
def charDigit (c : Char) : Option Nat :=
  if '0' ≤ c ∧ c ≤ '9' then some (c.toNat - 48) else none

/-- Read two digit characters as a decimal number. -/
def read2 (a b : Char) : Option Nat := do
  let x ← charDigit a
  let y ← charDigit b
  pure (10 * x + y)

/-- Read four digit characters as a decimal number. -/
def read4 (a b c d : Char) : Option Nat := do
  let x ← charDigit a
  let y ← charDigit b
  let z ← charDigit c
  let w ← charDigit d
  pure (1000 * x + 100 * y + 10 * z + w)

/-- Range validation performed by Go's `time.Parse` (month, day against the
month length, hour, minute, second). -/
def mkValidDateTime (y mo d h mi s : Nat) : Option DateTime :=
  if 1 ≤ mo ∧ mo ≤ 12 ∧ 1 ≤ d ∧ d ≤ daysInMonth y mo ∧ h < 24 ∧ mi < 60 ∧ s < 60 then
    some ⟨y, mo, d, h, mi, s⟩
  else
    none

/-- The shared digit part of the two datetime layouts: four-digit year,
then two digits each for month, day, hour, minute, second, with the range
validation `time.Parse` performs. -/
def parseCore (y1 y2 y3 y4 m1 m2 d1 d2 h1 h2 i1 i2 s1 s2 : Char) : Option DateTime := do
  let y ← read4 y1 y2 y3 y4
  let mo ← read2 m1 m2
  let d ← read2 d1 d2
  let h ← read2 h1 h2
  let mi ← read2 i1 i2
  let s ← read2 s1 s2
  mkValidDateTime y mo d h mi s

/-- `time.Parse("20060102T150405", s)`: fifteen characters, literal `T`,
UTC result. -/
def parseLayoutDateTime : List Char → Option DateTime
  | [y1, y2, y3, y4, m1, m2, d1, d2, t, h1, h2, i1, i2, s1, s2] =>
    if t = 'T' then parseCore y1 y2 y3 y4 m1 m2 d1 d2 h1 h2 i1 i2 s1 s2 else none
  | _ => none

/-- `time.Parse("20060102T150405Z", s)`: as above plus a literal trailing
`Z` (a lone `Z` in a Go layout is a literal). -/
def parseLayoutDateTimeZ : List Char → Option DateTime
  | [y1, y2, y3, y4, m1, m2, d1, d2, t, h1, h2, i1, i2, s1, s2, z] =>
    if t = 'T' ∧ z = 'Z' then parseCore y1 y2 y3 y4 m1 m2 d1 d2 h1 h2 i1 i2 s1 s2
    else none
  | _ => none

/-- `time.Parse("20060102", s)`: date only, midnight UTC. -/
def parseLayoutDateOnly : List Char → Option DateTime
  | [y1, y2, y3, y4, m1, m2, d1, d2] => do
    let y ← read4 y1 y2 y3 y4
    let mo ← read2 m1 m2
    let d ← read2 d1 d2
    mkValidDateTime y mo d 0 0 0
  | _ => none

/-- `caldavTimeToTimestamp` (caldav todo deserialization): empty strings map
to the zero time; the layout is chosen by inspecting the string (a trailing
`Z` selects the UTC-suffixed layout, a length of 8 overrides that with the
date-only layout); a parse failure is logged and yields the zero time,
never an error. Go measures `len` in bytes and `strings.HasSuffix` on
bytes, while this model works on characters; the two agree on every string
any chosen layout can accept, and all others map to the zero time either
way. -/
def caldavParseChars (cs : List Char) : Option DateTime :=
  if cs.length = 8 then parseLayoutDateOnly cs
  else if cs.getLast? = some 'Z' then parseLayoutDateTimeZ cs
  else parseLayoutDateTime cs

/-- `caldavTimeToTimestamp` itself: empty string or parse failure yields
the zero time. -/
def caldavTimeToTimestamp (s : String) : DateTime :=
  if s = "" then DateTime.zero
  else
    match caldavParseChars s.data with
    | some t => t
    | none => DateTime.zero

/-! ## Rights, identities and link shares

From `pkg/models`: the `Right` enum (modelled from the spec, its defining
file is not among the provided sources), the polymorphic `web.Auth`
principal, and the `LinkSharing` entity of `link_sharing.go`. -/

/-- Modelled from the spec: the access right enum. `Right` is an `int64`
with the three valid values Read=0, ReadWrite=1, Admin=2 (`rights.go` is
not among the provided sources; the spec and the struct tags document the
enum). -/
def RightRead : Int := 0

/-- ReadWrite right (1). -/
def RightWrite : Int := 1

/-- Admin right (2). -/
def RightAdmin : Int := 2

/-- Modelled from the spec: `Right.isValid` succeeds exactly on the three
enum values and otherwise fails with `ErrInvalidRight`. -/
def rightIsValid (r : Int) : Bool := r == RightRead || r == RightWrite || r == RightAdmin

/-- The typed error values of `pkg/models/error.go` that the verified
operations return. -/
inductive ModelErr where
  | invalidRight (r : Int)
  | listDoesNotExist (id : Int)
  | userDoesNotExist (username : String)
  | namespaceDoesNotExist (id : Int)
  | userAlreadyHasAccess (userID listID : Int)
  | userAlreadyHasNamespaceAccess (userID namespaceID : Int)
  | linkSharePasswordRequired (shareID : Int)
  | linkSharePasswordInvalid (shareID : Int)
  | other (msg : String)
deriving DecidableEq, Repr

/-- A minimal registered user (`pkg/user`): positive numeric id and
username. -/
structure User where
  id : Int
  username : String
deriving DecidableEq, Repr

/-- `SharingType` from `link_sharing.go`: 0 unknown, 1 without password,
2 with password. -/
inductive SharingType where
  | unknown
  | withoutPassword
  | withPassword
deriving DecidableEq, Repr

/-- `LinkSharing` from `link_sharing.go` (persisted fields; `SharedBy` is a
join-time decoration and `Created`/`Updated` are timestamps irrelevant to
the verified behavior, kept for shape). -/
structure LinkSharing where
  ID : Int
  Hash : String
  Name : String
  ListID : Int
  Right : Int
  SharingType : SharingType
  Password : String
  SharedByID : Int
  Created : DateTime := DateTime.zero
  Updated : DateTime := DateTime.zero
deriving DecidableEq, Repr

/-- `GetID` from `link_sharing.go`: returns the link share's own ID
(`return share.ID` — unnegated). -/
def LinkSharing.GetID (share : LinkSharing) : Int := share.ID

/-- `getUserID` from `link_sharing.go`: `return share.ID * -1`. -/
def LinkSharing.getUserID (share : LinkSharing) : Int := share.ID * -1

/-- The `web.Auth` interface: either a registered user or a link-share
pseudo-identity (`models.LinkSharing`). -/
inductive Auth where
  | user (u : User)
  | linkShare (share : LinkSharing)
deriving DecidableEq, Repr

/-- `web.Auth.GetID` dispatched over the two implementations. -/
def Auth.GetID : Auth → Int
  | .user u => u.id
  | .linkShare share => share.GetID

/-- `toUser` from `link_sharing.go`: the pseudo-user a link share acts as.
Its `ID` is `getUserID`, i.e. the negated share id (the Go `user.User`
display-name column is folded away by our minimal `User`; only the id and
username matter to the claims). -/
def LinkSharing.toUser (share : LinkSharing) : User :=
  { id := share.getUserID, username := share.Name }

/-- The result of `bcrypt.CompareHashAndPassword`: nil error, the
`ErrMismatchedHashAndPassword` sentinel, or any other error (e.g. an
invalid stored hash). The comparison itself is an external collaborator
and is passed in as a function. -/
inductive BcryptResult where
  | ok
  | mismatch
  | otherError (msg : String)
deriving DecidableEq, Repr

/-- `VerifyLinkSharePassword` from `link_sharing.go`: empty supplied
password fails with `ErrLinkSharePasswordRequired`; a bcrypt mismatch of
the stored hash against the supplied password fails with
`ErrLinkSharePasswordInvalid`; any other bcrypt error is passed through;
otherwise nil. `bcryptCompare hash password` models
`bcrypt.CompareHashAndPassword([]byte(hash), []byte(password))`. -/
def VerifyLinkSharePassword (bcryptCompare : String → String → BcryptResult)
    (share : LinkSharing) (password : String) : Option ModelErr :=
  if password = "" then
    some (.linkSharePasswordRequired share.ID)
  else
    match bcryptCompare share.Password password with
    | .ok => none
    | .mismatch => some (.linkSharePasswordInvalid share.ID)
    | .otherError msg => some (.other msg)

/-! ## Sharing-relation capability checks

`pkg/models/list_users_rights.go` and `pkg/models/namespace_team_rights.go`.
`List.IsAdmin` and `Namespace.IsAdmin` live in files not among the provided
sources; they are passed in as oracles / modelled from the spec where the
claims need them. -/

/-- `ListUser` from `pkg/models/list_users.go` (persisted fields). -/
structure ListUser where
  ID : Int
  Username : String
  UserID : Int
  ListID : Int
  Right : Int
deriving DecidableEq, Repr

/-- `TeamNamespace` from `namespace_teams.go` (persisted fields). -/
structure TeamNamespace where
  ID : Int
  TeamID : Int
  NamespaceID : Int
  Right : Int
deriving DecidableEq, Repr

/-- The signature of `List.IsAdmin(s, a)` (its file is not among the
provided sources): a boolean plus an optional error, depending on the
list id, the principal and the database contents, all abstracted into the
oracle. -/
def ListIsAdminFn : Type := Int → Auth → Bool × Option ModelErr

/-- `canDoListUser` from `list_users_rights.go`: link shares are denied
outright (`return false, nil`); everyone else is deferred to
`List.IsAdmin` on the relation's list. -/
def ListUser.canDoListUser (listIsAdmin : ListIsAdminFn) (lu : ListUser)
    (a : Auth) : Bool × Option ModelErr :=
  match a with
  | .linkShare _ => (false, none)
  | _ => listIsAdmin lu.ListID a

/-- `ListUser.CanCreate` from `list_users_rights.go`. -/
def ListUser.CanCreate (listIsAdmin : ListIsAdminFn) (lu : ListUser)
    (a : Auth) : Bool × Option ModelErr :=
  lu.canDoListUser listIsAdmin a

/-- `ListUser.CanDelete` from `list_users_rights.go`. -/
def ListUser.CanDelete (listIsAdmin : ListIsAdminFn) (lu : ListUser)
    (a : Auth) : Bool × Option ModelErr :=
  lu.canDoListUser listIsAdmin a

/-- `ListUser.CanUpdate` from `list_users_rights.go`. -/
def ListUser.CanUpdate (listIsAdmin : ListIsAdminFn) (lu : ListUser)
    (a : Auth) : Bool × Option ModelErr :=
  lu.canDoListUser listIsAdmin a

/-- Modelled from the spec: `Namespace.IsAdmin` (its file,
`namespace_rights.go`, is not among the provided sources). Per the spec a
LinkSharing principal is never permitted on namespaces — link shares are
scoped to a single list and are hard-denied on sharing management — so the
link-share branch returns `(false, nil)`; the registered-user resolution
walks the database and is abstracted as an oracle. -/
def namespaceIsAdmin (userIsAdmin : Int → User → Bool × Option ModelErr)
    (namespaceID : Int) (a : Auth) : Bool × Option ModelErr :=
  match a with
  | .linkShare _ => (false, none)
  | .user u => userIsAdmin namespaceID u

/-- `TeamNamespace.CanCreate` from `namespace_team_rights.go`: defers to
`Namespace.IsAdmin` on the relation's namespace. -/
def TeamNamespace.CanCreate (userIsAdmin : Int → User → Bool × Option ModelErr)
    (tn : TeamNamespace) (a : Auth) : Bool × Option ModelErr :=
  namespaceIsAdmin userIsAdmin tn.NamespaceID a

/-- `TeamNamespace.CanDelete` from `namespace_team_rights.go`. -/
def TeamNamespace.CanDelete (userIsAdmin : Int → User → Bool × Option ModelErr)
    (tn : TeamNamespace) (a : Auth) : Bool × Option ModelErr :=
  namespaceIsAdmin userIsAdmin tn.NamespaceID a

/-- `TeamNamespace.CanUpdate` from `namespace_team_rights.go`. -/
def TeamNamespace.CanUpdate (userIsAdmin : Int → User → Bool × Option ModelErr)
    (tn : TeamNamespace) (a : Auth) : Bool × Option ModelErr :=
  namespaceIsAdmin userIsAdmin tn.NamespaceID a

/-! ## Sharing-relation creation (`pkg/models/list_users.go`,
`namespace_users.go`)

The xorm session is modelled as an explicit relational state. Lookups the
Go code performs with `Where(...).Get(...)` become searches of that state.
`events.Dispatch` and `updateListLastUpdated` only touch collaborators and
a timestamp column and are modelled as successful no-ops on the modelled
columns. -/

/-- A persisted list row (`List`): the columns `ListUser.Create`
consults. -/
structure ListRec where
  id : Int
  ownerID : Int
deriving DecidableEq, Repr

/-- A persisted namespace row (`Namespace`): the columns
`NamespaceUser.Create` consults. -/
structure NamespaceRec where
  id : Int
  ownerID : Int
deriving DecidableEq, Repr

/-- A `users_lists` row. -/
structure ListUserRow where
  listID : Int
  userID : Int
  right : Int
deriving DecidableEq, Repr

/-- A `users_namespaces` row. -/
structure NamespaceUserRow where
  namespaceID : Int
  userID : Int
  right : Int
deriving DecidableEq, Repr

/-- The relational state visible to the verified operations. Team tables
are included so that theorems can quantify over team-granted access that
`ListUser.Create` never consults. -/
structure DBState where
  lists : List ListRec
  namespaces : List NamespaceRec
  users : List User
  listUserRows : List ListUserRow
  namespaceUserRows : List NamespaceUserRow
  listTeamRows : List (Int × Int)       -- (listID, teamID), table team_list
  teamMemberRows : List (Int × Int)     -- (teamID, userID), table team_members
deriving DecidableEq, Repr

/-- `GetListSimpleByID`: fetch a list row or fail with
`ErrListDoesNotExist`. -/
def getListSimpleByID (db : DBState) (id : Int) : Except ModelErr ListRec :=
  match db.lists.find? (fun l => l.id == id) with
  | some l => .ok l
  | none => .error (.listDoesNotExist id)

/-- `GetNamespaceByID`: fetch a namespace row or fail. -/
def getNamespaceByID (db : DBState) (id : Int) : Except ModelErr NamespaceRec :=
  match db.namespaces.find? (fun n => n.id == id) with
  | some n => .ok n
  | none => .error (.namespaceDoesNotExist id)

/-- `user.GetUserByUsername`: fetch a user or fail. -/
def getUserByUsername (db : DBState) (username : String) : Except ModelErr User :=
  match db.users.find? (fun u => u.username == username) with
  | some u => .ok u
  | none => .error (.userDoesNotExist username)

/-- `ListUser.Create` from `pkg/models/list_users.go`: validate the right,
fetch the list, resolve the username, refuse when the target is the list
owner or a `users_lists` row already exists (explicitly not checking
teams), then insert the row, dispatch `ListSharedWithUserEvent` and touch
the list's `updated` column. Returns the error (if any) and the resulting
state; every error path leaves the state unchanged. -/
def ListUser.Create (db : DBState) (lu : ListUser) :
    Option ModelErr × DBState :=
  if rightIsValid lu.Right then
    match getListSimpleByID db lu.ListID with
    | .error e => (some e, db)
    | .ok l =>
      match getUserByUsername db lu.Username with
      | .error e => (some e, db)
      | .ok u =>
        if l.ownerID = u.id then
          (some (.userAlreadyHasAccess u.id lu.ListID), db)
        else if db.listUserRows.any (fun r => r.listID == lu.ListID && r.userID == u.id) then
          (some (.userAlreadyHasAccess u.id lu.ListID), db)
        else
          (none, { db with listUserRows :=
            db.listUserRows ++ [⟨lu.ListID, u.id, lu.Right⟩] })
  else (some (.invalidRight lu.Right), db)

/-- `NamespaceUser` from `namespace_users.go` (persisted fields). -/
structure NamespaceUser where
  ID : Int
  Username : String
  UserID : Int
  NamespaceID : Int
  Right : Int
deriving DecidableEq, Repr

/-- `NamespaceUser.Create` from `namespace_users.go`: the same shape as
`ListUser.Create` against the namespace tables (the id reset
`nu.ID = 0` only affects the autoincrement insert and is immaterial
here). -/
def NamespaceUser.Create (db : DBState) (nu : NamespaceUser) :
    Option ModelErr × DBState :=
  if rightIsValid nu.Right then
    match getNamespaceByID db nu.NamespaceID with
    | .error e => (some e, db)
    | .ok n =>
      match getUserByUsername db nu.Username with
      | .error e => (some e, db)
      | .ok u =>
        if n.ownerID = u.id then
          (some (.userAlreadyHasNamespaceAccess u.id nu.NamespaceID), db)
        else if db.namespaceUserRows.any
            (fun r => r.namespaceID == nu.NamespaceID && r.userID == u.id) then
          (some (.userAlreadyHasNamespaceAccess u.id nu.NamespaceID), db)
        else
          (none, { db with namespaceUserRows :=
            db.namespaceUserRows ++ [⟨nu.NamespaceID, u.id, nu.Right⟩] })
  else (some (.invalidRight nu.Right), db)

/-! ## CalDAV codec (`pkg/caldav/caldav.go`, todo part of `caldav/tasks`)

`ParseTodos` emits each VTODO property as one `NAME:VALUE` content line
between `BEGIN:VTODO` and `END:VTODO`; `ParseTaskFromVTODO` feeds the text
through the external iCalendar parser (`github.com/arran4/golang-ical`,
not part of this repository), which recovers exactly those NAME/VALUE
pairs, and then reads them out of a Go map. We model the serializer at
the property-pair level — the list of `(name, value)` pairs `ParseTodos`
emits for one todo, in emission order — and the deserializer as the map
readout over those pairs, mirroring that a Go map keeps the last write
per key. -/

/-- `models.TaskRepeatMode`: 0 repeat-after-amount (default), 1 monthly,
2 from current date. -/
inductive TaskRepeatMode where
  | default
  | month
  | fromCurrentDate
deriving DecidableEq, Repr

/-- `Todo` from `pkg/caldav/caldav.go` (second-precision timestamps,
duration in nanoseconds as Go's `time.Duration`). -/
structure Todo where
  Timestamp : DateTime
  UID : String
  Summary : String
  Description : String
  Completed : DateTime
  Organizer : Option User
  Priority : Int
  RelatedToUID : String
  Color : String
  Start : DateTime
  End : DateTime
  DueDate : DateTime
  Duration : Int
  RepeatAfter : Int
  RepeatMode : TaskRepeatMode
  Created : DateTime
  Updated : DateTime
deriving DecidableEq, Repr

/-- The regexp replacement of `ParseTodos`: every `\r\n` or `\n` in the
description becomes the two characters backslash-`n`. -/
def escapeNewlines : List Char → List Char
  | [] => []
  | c :: rest =>
    if c = '\r' ∧ rest.head? = some '\n' then '\\' :: 'n' :: escapeNewlines rest.tail
    else if c = '\n' then '\\' :: 'n' :: escapeNewlines rest
    else c :: escapeNewlines rest
termination_by l => l.length
decreasing_by
  all_goals simp_arith [List.length_tail]

/-- `strings.ReplaceAll` for a two-character pattern `[a, b]` replaced by
`r`: leftmost, non-overlapping. -/
def replacePair (a b : Char) (r : List Char) : List Char → List Char
  | [] => []
  | [c] => [c]
  | c :: d :: rest =>
    if c = a ∧ d = b then r ++ replacePair a b r rest
    else c :: replacePair a b r (d :: rest)
termination_by l => l.length
decreasing_by all_goals simp_arith

/-- The description unescaping of `ParseTaskFromVTODO`:
`ReplaceAll(s, "\\,", ",")` then `ReplaceAll(s, "\\n", "\n")`. -/
def unescapeDescription (s : String) : String :=
  String.mk (replacePair '\\' 'n' ['\n'] (replacePair '\\' ',' [','] s.data))

/-- `getCaldavColor` from `pkg/caldav/caldav.go`, at the property level:
empty color emits nothing; otherwise the `#`-prefixed color with forced
alpha `FF` is emitted under the three vendor property names. -/
def getCaldavColorProps (color : String) : List (String × String) :=
  if color = "" then []
  else
    let c := (if color.startsWith "#" then color else "#" ++ color) ++ "FF"
    [("X-APPLE-CALENDAR-COLOR", c), ("X-OUTLOOK-COLOR", c), ("X-FUNAMBOL-COLOR", c)]

/-- `formatDuration` from `pkg/caldav/caldav.go`. The Go code computes
`Seconds() - Minutes()*60` and `Minutes() - Hours()*60` on the undivided
duration in float64, so both the minute and second components print as 0
and the hour component is the total duration rounded to whole hours; we
mirror that with integer rounding (ties approximated upward, where the Go
float formatting rounds to even — no claim depends on this value, only on
whether the DURATION property is present at all). -/
def formatDuration (d : Int) : String :=
  let hours : Int := Int.fdiv (2 * d + 3600000000000) 7200000000000
  toString hours ++ "H0M0S"

/-- Modelled from the spec: `mapPriorityToCaldav` (its file is not among
the provided sources). Tiering per the spec's table, with the documented
implementation-chosen thresholds 1–3 high, 4–6 medium, 7–9 low; anything
outside 1–9 maps to 0. -/
def mapPriorityToCaldav (priority : Int) : Nat :=
  if 1 ≤ priority ∧ priority ≤ 3 then 1
  else if 4 ≤ priority ∧ priority ≤ 6 then 5
  else if 7 ≤ priority ∧ priority ≤ 9 then 9
  else 0

/-- Modelled from the spec: `parseVTODOPriority`, the tier-stable inverse
of `mapPriorityToCaldav` (caldav 1–3 → internal 2, 4–6 → 5, 7–9 → 8,
else 0). -/
def parseVTODOPriority (caldavPriority : Int) : Int :=
  if 1 ≤ caldavPriority ∧ caldavPriority ≤ 3 then 2
  else if 4 ≤ caldavPriority ∧ caldavPriority ≤ 6 then 5
  else if 7 ≤ caldavPriority ∧ caldavPriority ≤ 9 then 8
  else 0

/-- The property pairs `ParseTodos` (pkg/caldav/caldav.go) emits for one
todo, in emission order. `sha256` is the external hash used for the UID
fallback. -/
def serializeVTODOProps (sha256 : String → String) (t : Todo) :
    List (String × String) :=
  let uid := if t.UID = "" then
      makeCalDavTimeFromTimeStamp t.Timestamp ++ sha256 t.Summary
    else t.UID
  [("UID", uid), ("DTSTAMP", makeCalDavTimeFromTimeStamp t.Timestamp),
    ("SUMMARY", t.Summary)]
  ++ getCaldavColorProps t.Color
  ++ (if 0 < t.Start.toUnix then
        ("DTSTART", makeCalDavTimeFromTimeStamp t.Start) ::
          (if t.Duration ≠ 0 ∧ t.DueDate.toUnix = 0 then
            [("DURATION", "PT" ++ formatDuration t.Duration)]
          else [])
      else [])
  ++ (if 0 < t.End.toUnix then [("DTEND", makeCalDavTimeFromTimeStamp t.End)] else [])
  ++ (if t.Description ≠ "" then
        [("DESCRIPTION", String.mk (escapeNewlines t.Description.data))]
      else [])
  ++ (if 0 < t.Completed.toUnix then
        [("COMPLETED", makeCalDavTimeFromTimeStamp t.Completed), ("STATUS", "COMPLETED")]
      else [])
  ++ (match t.Organizer with
      | some o => [("ORGANIZER", o.username)]
      | none => [])
  ++ (if t.RelatedToUID ≠ "" then [("RELATED-TO", t.RelatedToUID)] else [])
  ++ (if 0 < t.DueDate.toUnix then [("DUE", makeCalDavTimeFromTimeStamp t.DueDate)] else [])
  ++ (if 0 < t.Created.toUnix then [("CREATED", makeCalDavTimeFromTimeStamp t.Created)] else [])
  ++ (if t.Priority ≠ 0 then [("PRIORITY", toString (mapPriorityToCaldav t.Priority))] else [])
  ++ (if 0 < t.RepeatAfter ∨ t.RepeatMode = .month then
        [("RRULE", if t.RepeatMode = .month then
            "FREQ=MONTHLY;BYMONTHDAY=" ++ String.mk (pad2 t.DueDate.day)
          else "FREQ=SECONDLY;INTERVAL=" ++ toString t.RepeatAfter)]
      else [])
  ++ [("LAST-MODIFIED", makeCalDavTimeFromTimeStamp t.Updated)]

/-- The Go map built from the parsed properties, read at one key:
iterate the pairs in order, last write wins. -/
def lastLookup (props : List (String × String)) (k : String) : Option String :=
  props.foldl (fun acc p => if p.1 = k then some p.2 else acc) none

/-- Go-map readout of the parsed properties: the value of the last pair
with the given name, or Go's string zero value `""` when absent. -/
def taskMapGet (props : List (String × String)) (k : String) : String :=
  (lastLookup props k).getD ""

/-- Whether the key exists in the Go map (the `if _, ok := task[k]` form). -/
def taskMapHas (props : List (String × String)) (k : String) : Bool :=
  (lastLookup props k).isSome

/-- Digits-prefix reader: value, number of digits consumed, rest. -/
def takeDigits (acc : Nat) : List Char → Nat × Nat × List Char
  | [] => (acc, 0, [])
  | c :: r =>
    match charDigit c with
    | some d =>
      let (v, n, r2) := takeDigits (acc * 10 + d) r
      (v, n + 1, r2)
    | none => (acc, 0, c :: r)

/-- `strconv.ParseInt(s, 10, 64)`: optional sign then decimal digits
(the 64-bit range check is immaterial for the values that occur here). -/
def parseIntGo (s : String) : Option Int :=
  let core : List Char → Option Nat := fun l =>
    match takeDigits 0 l with
    | (v, n, []) => if n = l.length ∧ l ≠ [] then some v else none
    | _ => none
  match s.data with
  | '-' :: rest => (core rest).map (fun n => -(n : Int))
  | '+' :: rest => (core rest).map (fun n => (n : Int))
  | l => (core l).map (fun n => (n : Int))

/-- One `number[.fraction]unit` component of a Go duration; nanosecond
value and rest. -/
def goDurationComponent (l : List Char) : Option (Int × List Char) :=
  let unitOf : List Char → Option (Int × List Char) := fun r =>
    match r with
    | 'n' :: 's' :: r2 => some (1, r2)
    | 'u' :: 's' :: r2 => some (1000, r2)
    | 'µ' :: 's' :: r2 => some (1000, r2)
    | 'm' :: 's' :: r2 => some (1000000, r2)
    | 's' :: r2 => some (1000000000, r2)
    | 'm' :: r2 => some (60000000000, r2)
    | 'h' :: r2 => some (3600000000000, r2)
    | _ => none
  let (ip, nInt, r1) := takeDigits 0 l
  match r1 with
  | '.' :: r2 =>
    let (fp, nFrac, r3) := takeDigits 0 r2
    if nInt + nFrac = 0 then none
    else
      match unitOf r3 with
      | some (unit, rest) => some ((ip : Int) * unit + (fp : Int) * unit / (10 ^ nFrac : Nat), rest)
      | none => none
  | _ =>
    if nInt = 0 then none
    else
      match unitOf r1 with
      | some (unit, rest) => some ((ip : Int) * unit, rest)
      | none => none

/-- Component loop of Go's `time.ParseDuration`, fuelled by the input
length (each component consumes at least one character). -/
def goDurationLoop (fuel : Nat) (acc : Int) (l : List Char) : Option Int :=
  match fuel with
  | 0 => none
  | fuel + 1 =>
    match l with
    | [] => some acc
    | _ =>
      match goDurationComponent l with
      | some (v, rest) => goDurationLoop fuel (acc + v) rest
      | none => none

/-- `time.ParseDuration`: optional sign, `"0"`, or a nonempty sequence of
`number[.fraction]unit` components. In particular every string starting
with `P` (the emitted ISO-8601 `PT...` values) fails to parse. -/
def goParseDuration (s : String) : Option Int :=
  match s.data with
  | [] => none
  | l0 =>
    let (neg, l) := match l0 with
      | '-' :: r => (true, r)
      | '+' :: r => (false, r)
      | r => (false, r)
    if l = ['0'] then some 0
    else if l = [] then none
    else (goDurationLoop (l.length + 1) 0 l).map (fun v => if neg then -v else v)

/-- `models.Task`, restricted to the fields `ParseTaskFromVTODO` sets. -/
structure Task where
  UID : String
  Title : String
  Description : String
  Priority : Int
  DueDate : DateTime
  Updated : DateTime
  StartDate : DateTime
  DoneAt : DateTime
  Done : Bool
  EndDate : DateTime
deriving DecidableEq, Repr

/-- `ParseTaskFromVTODO` (caldav task deserialization), over the property
pairs the external iCalendar parser recovers from the VTODO text: parse
PRIORITY when present (a malformed value is the one error path), parse
DURATION with `time.ParseDuration` ignoring errors, unescape DESCRIPTION,
read the timestamps through `caldavTimeToTimestamp`, set `Done` from
`STATUS == "COMPLETED"`, and derive `EndDate` from `DTSTART + DURATION`
when a positive duration parsed and the start date is non-zero. -/
def ParseTaskFromVTODO (props : List (String × String)) : Except String Task :=
  let get := taskMapGet props
  let priorityStep : Except String Int :=
    if taskMapHas props "PRIORITY" then
      match parseIntGo (get "PRIORITY") with
      | some n => .ok (parseVTODOPriority n)
      | none => .error "invalid PRIORITY"
    else .ok 0
  match priorityStep with
  | .error e => .error e
  | .ok priority =>
    let duration := (goParseDuration (get "DURATION")).getD 0
    let description := unescapeDescription (get "DESCRIPTION")
    let base : Task := {
      UID := get "UID"
      Title := get "SUMMARY"
      Description := description
      Priority := priority
      DueDate := caldavTimeToTimestamp (get "DUE")
      Updated := caldavTimeToTimestamp (get "DTSTAMP")
      StartDate := caldavTimeToTimestamp (get "DTSTART")
      DoneAt := caldavTimeToTimestamp (get "COMPLETED")
      Done := get "STATUS" = "COMPLETED"
      EndDate := DateTime.zero }
    .ok (if 0 < duration ∧ base.StartDate ≠ DateTime.zero then
      { base with EndDate := base.StartDate.addSeconds (duration / 1000000000) }
    else base)

/-! ## Structure importer (`pkg/modules/migration/create_from_structure.go`)

`InsertFromStructure` walks a nested namespace→list→bucket→task graph
inside one xorm session. The session is modelled as a buffer of pending
creation/deletion events: `Rollback` discards the buffer, `Commit`
appends it to the persistent database. Every entity `Create` call is a
collaborator whose success or failure is driven by an oracle stream of
`Option String` values (`none` = the call succeeds, `some e` = it fails
with error `e`); an exhausted stream means every remaining call succeeds.
New row ids are allocated from a counter. The spec-modelled parts are
marked below; everything else mirrors the Go control flow, in which every
error path calls `s.Rollback()` and returns the error, and `s.Commit()`
runs only after the whole walk. -/

/-- A session event: one row created or deleted during the import. -/
inductive Ev where
  | namespaceCreated (id : Nat)
  | listCreated (id : Nat) (namespaceID : Nat)
  | defaultBucketCreated (id : Nat) (listID : Nat)
  | fileCreated (id : Nat)
  | listBackgroundSet (listID : Nat) (fileID : Nat)
  | bucketCreated (id : Nat) (listID : Nat)
  | taskCreated (id : Nat) (listID : Nat) (bucketID : Nat)
  | relatedTaskCreated (id : Nat) (listID : Nat)
  | relationCreated (taskID otherTaskID kind : Nat)
  | attachmentCreated (taskID : Nat)
  | labelCreated (id : Nat)
  | labelTaskCreated (labelID taskID : Nat)
  | bucketDeleted (id : Nat)
deriving DecidableEq, Repr

/-- Importer session state: the failure oracle, the id counter, the
pending (uncommitted) events, and the cross-namespace label-deduplication
map keyed on title+color. -/
structure ImportState where
  oracle : List (Option String)
  nextID : Nat
  pending : List Ev
  labelMap : List (String × Nat)
deriving DecidableEq, Repr

/-- One collaborator call that creates a row: consult the oracle, and on
success allocate the next (positive) id and buffer the event. -/
def createOp (mk : Nat → Ev) (st : ImportState) :
    Except String (ImportState × Nat) :=
  match st.oracle with
  | some e :: _ => .error e
  | none :: rest =>
    .ok ({ st with
            oracle := rest
            nextID := st.nextID + 1
            pending := st.pending ++ [mk (st.nextID + 1)] }, st.nextID + 1)
  | [] =>
    .ok ({ st with
            nextID := st.nextID + 1
            pending := st.pending ++ [mk (st.nextID + 1)] }, st.nextID + 1)

/-- A related task in the import structure (`t.RelatedTasks` values):
id 0 means the task does not exist yet and is created first. -/
structure SRelated where
  id : Nat
deriving DecidableEq, Repr

/-- A label in the import structure. -/
structure SLabel where
  title : String
  hexColor : String
deriving DecidableEq, Repr

/-- An attachment in the import structure; only a non-empty file content
is imported. -/
structure SAttachment where
  fileContent : List Nat
deriving DecidableEq, Repr

/-- A task in the import structure: the old bucket id it references plus
its relations, attachments and labels. -/
structure STask where
  bucketID : Nat
  related : List (Nat × List SRelated)
  attachments : List SAttachment
  labels : List SLabel
deriving DecidableEq, Repr

/-- A list in the import structure: old bucket ids, tasks, and whether a
raw background image is supplied. -/
structure SList where
  buckets : List Nat
  tasks : List STask
  hasBackground : Bool
deriving DecidableEq, Repr

/-- A namespace in the import structure. -/
structure SNamespace where
  lists : List SList
deriving DecidableEq, Repr

/-- One related task of the per-task loop: create the related task first
when its id is 0 (`rt.ID == 0`), then the relation row. -/
def runRelated (listID taskID kind : Nat) (st0 : ImportState) (rt : SRelated) :
    Except String ImportState :=
  if rt.id = 0 then
    match createOp (fun i => .relatedTaskCreated i listID) st0 with
    | .error e => .error e
    | .ok (st, newID) =>
      match createOp (fun _ => .relationCreated taskID newID kind) st with
      | .error e => .error e
      | .ok (st, _) => .ok st
  else
    match createOp (fun _ => .relationCreated taskID rt.id kind) st0 with
    | .error e => .error e
    | .ok (st, _) => .ok st

/-- One attachment of the per-task loop: only non-empty file content is
imported. -/
def runAttachment (taskID : Nat) (st0 : ImportState) (a : SAttachment) :
    Except String ImportState :=
  if a.fileContent ≠ [] then
    match createOp (fun _ => .attachmentCreated taskID) st0 with
    | .error e => .error e
    | .ok (st, _) => .ok st
  else .ok st0

/-- One label of the per-task loop: reuse a label already created for the
same title+color during this import, else create it and record it in the
dedup map; then create the label⟷task row. -/
def runLabel (taskID : Nat) (st0 : ImportState) (lb : SLabel) :
    Except String ImportState :=
  let key := lb.title ++ lb.hexColor
  match st0.labelMap.lookup key with
  | some id =>
    match createOp (fun _ => .labelTaskCreated id taskID) st0 with
    | .error e => .error e
    | .ok (st, _) => .ok st
  | none =>
    match createOp (fun i => .labelCreated i) st0 with
    | .error e => .error e
    | .ok (st1, newID) =>
      match createOp (fun _ => .labelTaskCreated newID taskID)
          { st1 with labelMap := st1.labelMap ++ [(key, newID)] } with
      | .error e => .error e
      | .ok (st, _) => .ok st

/-- The relation/attachment/label part of the per-task loop body. -/
def runTaskExtras (listID taskID : Nat) (t : STask) (st0 : ImportState) :
    Except String ImportState :=
  match t.related.foldlM
      (fun st kt => kt.2.foldlM (runRelated listID taskID kt.1) st) st0 with
  | .error e => .error e
  | .ok st1 =>
    match t.attachments.foldlM (runAttachment taskID) st1 with
    | .error e => .error e
    | .ok st2 => t.labels.foldlM (runLabel taskID) st2

/-- The bucket-id remap of the per-task loop: a bucket created for the
old id yields its new id (`t.BucketID = bucket.ID`); otherwise a positive
old id is reset to 0 (`else if t.BucketID > 0 { t.BucketID = 0 }`). -/
def remapBucketID (bucketMap : List (Nat × Nat)) (oldID : Nat) : Nat :=
  match bucketMap.lookup oldID with
  | some newID => newID
  | none => if 0 < oldID then 0 else oldID

/-- The flag update of the per-task loop:
`if !exists || t.BucketID == 0 { needsDefaultBucket = true }`. -/
def taskNeedsDefaultBucket (bucketMap : List (Nat × Nat)) (oldID : Nat) : Bool :=
  !(bucketMap.lookup oldID).isSome || remapBucketID bucketMap oldID == 0

/-- The per-task loop body: remap the old bucket id through the map of
created buckets, update the needs-default-bucket flag, create the task,
then its extras. -/
def runTask (listID : Nat) (bucketMap : List (Nat × Nat))
    (p : ImportState × Bool) (t : STask) :
    Except String (ImportState × Bool) :=
  match createOp
      (fun i => .taskCreated i listID (remapBucketID bucketMap t.bucketID)) p.1 with
  | .error e => .error e
  | .ok (st, taskID) =>
    match runTaskExtras listID taskID t st with
    | .error e => .error e
    | .ok st => .ok (st, p.2 || taskNeedsDefaultBucket bucketMap t.bucketID)

/-- One imported bucket: create it and extend the old-id→new-id map. -/
def runBucket (listID : Nat) (p : ImportState × List (Nat × Nat))
    (oldID : Nat) : Except String (ImportState × List (Nat × Nat)) :=
  match createOp (fun i => .bucketCreated i listID) p.1 with
  | .error e => .error e
  | .ok (st, newID) => .ok (st, p.2 ++ [(oldID, newID)])

/-- The per-list loop body: create the list (whose `List.Create` — not
among the provided sources — also auto-creates one default bucket, per
the spec, modelled as a second creation step), store the optional
background, create the buckets building the old-id→new-id map, run the
tasks, and delete the default bucket when no task needed it. The final
`Bucket.ReadAll`/`Delete` pair is modelled from the spec as returning the
auto-created default bucket first and deleting it through one fallible
collaborator call. -/
def runList (namespaceID : Nat) (st0 : ImportState) (l : SList) :
    Except String ImportState :=
  match createOp (fun i => .listCreated i namespaceID) st0 with
  | .error e => .error e
  | .ok (st, listID) =>
    match createOp (fun i => .defaultBucketCreated i listID) st with
    | .error e => .error e
    | .ok (st, defaultBucketID) =>
      match (if l.hasBackground then
          match createOp (fun i => .fileCreated i) st with
          | .error e => .error e
          | .ok (st, fileID) =>
            match createOp (fun _ => .listBackgroundSet listID fileID) st with
            | .error e => .error e
            | .ok (st, _) => .ok st
        else .ok st : Except String ImportState) with
      | .error e => .error e
      | .ok st =>
        match l.buckets.foldlM (runBucket listID) (st, []) with
        | .error e => .error e
        | .ok (st, bucketMap) =>
          match l.tasks.foldlM (runTask listID bucketMap) (st, false) with
          | .error e => .error e
          | .ok (st, needsDefaultBucket) =>
            if !needsDefaultBucket then
              match createOp (fun _ => .bucketDeleted defaultBucketID) st with
              | .error e => .error e
              | .ok (st, _) => .ok st
            else .ok st

/-- The per-namespace loop body. -/
def runNamespace (st0 : ImportState) (n : SNamespace) :
    Except String ImportState :=
  match createOp (fun i => .namespaceCreated i) st0 with
  | .error e => .error e
  | .ok (st, namespaceID) => n.lists.foldlM (runList namespaceID) st

/-- The whole walk of `InsertFromStructure`, before commit/rollback. -/
def runStructure (str : List SNamespace) (st0 : ImportState) :
    Except String ImportState :=
  str.foldlM runNamespace st0

/-- `InsertFromStructure` from
`pkg/modules/migration/create_from_structure.go`: run the walk in a fresh
session; on any error the session is rolled back (the Go code calls
`s.Rollback()` at each error site before returning — discarding the
pending events) and the error is returned; otherwise `s.Commit()` applies
the pending events to the database. -/
def InsertFromStructure (str : List SNamespace) (oracle : List (Option String))
    (db : List Ev) : Option String × List Ev :=
  match runStructure str { oracle := oracle, nextID := 0, pending := [], labelMap := [] } with
  | .error e => (some e, db)
  | .ok st => (none, db ++ st.pending)

/-! ## Concrete instances used by counterexamples and witnesses -/

/-- A toy bcrypt collaborator for the C2 witness: the stored hash "HASH"
matches exactly the password "1234". -/
def bcryptToy : String → String → BcryptResult := fun stored supplied =>
  if stored = "HASH" ∧ supplied = "1234" then .ok else .mismatch

/-- A concrete password-protected share for the C2 witness. -/
def shareWithPassword : LinkSharing :=
  { ID := 1, Hash := "h", Name := "", ListID := 2, Right := 0,
    SharingType := .withPassword, Password := "HASH", SharedByID := 3 }

/-- A concrete share for C5. -/
def shareFive : LinkSharing :=
  { ID := 5, Hash := "h", Name := "", ListID := 2, Right := 0,
    SharingType := .withoutPassword, Password := "", SharedByID := 3 }

/-- Concrete database for the C6 and C10 witnesses. -/
def dbWitness : DBState :=
  { lists := [⟨10, 100⟩]
    namespaces := [⟨20, 100⟩]
    users := [⟨100, "owner"⟩, ⟨101, "bob"⟩]
    listUserRows := [⟨10, 102, 0⟩]
    namespaceUserRows := []
    listTeamRows := [(10, 7)]
    teamMemberRows := [(7, 101)] }

/-- A concrete todo whose DTSTAMP timestamp differs from its last-modified
time. -/
def todoStampMismatch : Todo :=
  { Timestamp := ⟨2023, 5, 14, 12, 0, 0⟩, UID := "u1", Summary := "s",
    Description := "", Completed := DateTime.zero, Organizer := none,
    Priority := 0, RelatedToUID := "", Color := "",
    Start := DateTime.zero, End := DateTime.zero, DueDate := DateTime.zero,
    Duration := 0, RepeatAfter := 0, RepeatMode := .default,
    Created := DateTime.zero, Updated := ⟨2023, 5, 14, 13, 0, 0⟩ }

/-- A concrete todo for the C3 witness, with every claimed field set. -/
def todoRound : Todo :=
  { Timestamp := ⟨2023, 5, 14, 12, 0, 0⟩, UID := "u2", Summary := "hello",
    Description := "line1\nline2", Completed := ⟨2023, 5, 15, 8, 0, 0⟩,
    Organizer := none, Priority := 5, RelatedToUID := "", Color := "",
    Start := ⟨2023, 5, 14, 9, 0, 0⟩, End := ⟨2023, 5, 14, 10, 0, 0⟩,
    DueDate := ⟨2023, 5, 20, 0, 0, 0⟩, Duration := 0, RepeatAfter := 0,
    RepeatMode := .default, Created := ⟨2023, 5, 1, 0, 0, 0⟩,
    Updated := ⟨2023, 5, 14, 12, 0, 0⟩ }

/-- A concrete todo with an explicit (non-zero) end date that still emits
DURATION: start 1970-01-01T00:01:40Z, end 00:03:20Z, due exactly the Unix
epoch (whose `Unix()` is 0, which is what the code tests), duration 50ns. -/
def todoWithEnd : Todo :=
  { Timestamp := ⟨2023, 5, 14, 12, 0, 0⟩, UID := "u3", Summary := "s",
    Description := "", Completed := DateTime.zero, Organizer := none,
    Priority := 0, RelatedToUID := "", Color := "",
    Start := ⟨1970, 1, 1, 0, 1, 40⟩, End := ⟨1970, 1, 1, 0, 3, 20⟩,
    DueDate := ⟨1970, 1, 1, 0, 0, 0⟩, Duration := 50, RepeatAfter := 0,
    RepeatMode := .default, Created := DateTime.zero,
    Updated := ⟨2023, 5, 14, 12, 0, 0⟩ }

/-! ## Importer invariants -/

/-- Whether an event is a bucket deletion. -/
def isBucketDeletion : Ev → Bool
  | .bucketDeleted _ => true
  | _ => false

/-- The oracle grants success to every remaining collaborator call. -/
def AllNone (st : ImportState) : Prop := ∀ x ∈ st.oracle, x = none

/-- `st2` extends `st` by appending pending events, none of which is a
bucket deletion. -/
def ExtendsNoDel (st st2 : ImportState) : Prop :=
  ∃ new, st2.pending = st.pending ++ new ∧ ∀ e ∈ new, isBucketDeletion e = false

/-- A small import structure for the C8 witness: one namespace with one
empty list. -/
def demoStructure : List SNamespace :=
  [{ lists := [{ buckets := [], tasks := [], hasBackground := false }] }]

/-- A list whose single task references the imported bucket 7. -/
def listAllBucketed : SList :=
  { buckets := [7]
    tasks := [{ bucketID := 7, related := [], attachments := [], labels := [] }]
    hasBackground := false }

theorem daysInMonth_le_31 (y m : Nat) : daysInMonth y m ≤ 31 := by
  unfold daysInMonth
  split
  all_goals first
    | omega
    | (split_ifs <;> omega)

/-! ### Format / parse roundtrip lemmas -/

theorem charDigit_digitChar (n : Nat) : charDigit (digitChar n) = some (n % 10) := by
  have h : n % 10 < 10 := Nat.mod_lt _ (by norm_num)
  unfold digitChar
  set k := n % 10 with hk
  clear_value k
  interval_cases k <;> decide

theorem read2_pad2 (n : Nat) (h : n < 100) :
    read2 (digitChar (n / 10)) (digitChar n) = some n := by
  simp only [read2, charDigit_digitChar, Option.bind_eq_bind, Option.some_bind]
  have : n / 10 % 10 = n / 10 := Nat.mod_eq_of_lt (by omega)
  simp only [this]
  congr 1
  omega

theorem read4_pad4 (n : Nat) (h : n < 10000) :
    read4 (digitChar (n / 1000)) (digitChar (n / 100)) (digitChar (n / 10))
      (digitChar n) = some n := by
  simp only [read4, charDigit_digitChar, Option.bind_eq_bind, Option.some_bind]
  have h1 : n / 1000 % 10 = n / 1000 := Nat.mod_eq_of_lt (by omega)
  simp only [h1]
  congr 1
  omega

theorem mkValidDateTime_of_valid (t : DateTime) (h : t.Valid) :
    mkValidDateTime t.year t.month t.day t.hour t.minute t.second = some t := by
  obtain ⟨_, _, _, _, _, _, _, _⟩ := h
  unfold mkValidDateTime
  rw [if_pos (by constructor <;> omega)]

theorem parseCore_format (t : DateTime) (h : t.Valid) :
    parseCore (digitChar (t.year / 1000)) (digitChar (t.year / 100))
      (digitChar (t.year / 10)) (digitChar t.year)
      (digitChar (t.month / 10)) (digitChar t.month)
      (digitChar (t.day / 10)) (digitChar t.day)
      (digitChar (t.hour / 10)) (digitChar t.hour)
      (digitChar (t.minute / 10)) (digitChar t.minute)
      (digitChar (t.second / 10)) (digitChar t.second) = some t := by
  have hy := h.1
  obtain ⟨_, hm1, hm2, hd1, hd2, hh, hmi, hs⟩ := h
  have hdm : t.day < 100 := by
    have := daysInMonth_le_31 t.year t.month
    omega
  unfold parseCore
  rw [read4_pad4 _ (by omega), read2_pad2 _ (by omega), read2_pad2 _ hdm,
    read2_pad2 _ (by omega), read2_pad2 _ (by omega), read2_pad2 _ (by omega)]
  simpa using mkValidDateTime_of_valid t ⟨hy, hm1, hm2, hd1, hd2, hh, hmi, hs⟩

theorem parseLayoutDateTimeZ_format (t : DateTime) (h : t.Valid) :
    parseLayoutDateTimeZ (formatDateTimeChars t ++ ['Z']) = some t := by
  have hred : parseLayoutDateTimeZ (formatDateTimeChars t ++ ['Z']) =
      if ('T' : Char) = 'T' ∧ ('Z' : Char) = 'Z' then
        parseCore (digitChar (t.year / 1000)) (digitChar (t.year / 100))
          (digitChar (t.year / 10)) (digitChar t.year)
          (digitChar (t.month / 10)) (digitChar t.month)
          (digitChar (t.day / 10)) (digitChar t.day)
          (digitChar (t.hour / 10)) (digitChar t.hour)
          (digitChar (t.minute / 10)) (digitChar t.minute)
          (digitChar (t.second / 10)) (digitChar t.second)
      else none := rfl
  rw [hred, if_pos ⟨rfl, rfl⟩]
  exact parseCore_format t h

theorem parseLayoutDateTime_format (t : DateTime) (h : t.Valid) :
    parseLayoutDateTime (formatDateTimeChars t) = some t := by
  have hred : parseLayoutDateTime (formatDateTimeChars t) =
      if ('T' : Char) = 'T' then
        parseCore (digitChar (t.year / 1000)) (digitChar (t.year / 100))
          (digitChar (t.year / 10)) (digitChar t.year)
          (digitChar (t.month / 10)) (digitChar t.month)
          (digitChar (t.day / 10)) (digitChar t.day)
          (digitChar (t.hour / 10)) (digitChar t.hour)
          (digitChar (t.minute / 10)) (digitChar t.minute)
          (digitChar (t.second / 10)) (digitChar t.second)
      else none := rfl
  rw [hred, if_pos rfl]
  exact parseCore_format t h

theorem parseLayoutDateOnly_format (t : DateTime) (h : t.Valid)
    (hmid : t.hour = 0 ∧ t.minute = 0 ∧ t.second = 0) :
    parseLayoutDateOnly (pad4 t.year ++ pad2 t.month ++ pad2 t.day) = some t := by
  have hred : parseLayoutDateOnly (pad4 t.year ++ pad2 t.month ++ pad2 t.day) =
      (do
        let y ← read4 (digitChar (t.year / 1000)) (digitChar (t.year / 100))
          (digitChar (t.year / 10)) (digitChar t.year)
        let mo ← read2 (digitChar (t.month / 10)) (digitChar t.month)
        let d ← read2 (digitChar (t.day / 10)) (digitChar t.day)
        mkValidDateTime y mo d 0 0 0) := rfl
  rw [hred]
  have hy := h.1
  obtain ⟨_, hm1, hm2, hd1, hd2, hh, hmi, hs⟩ := h
  have hdm : t.day < 100 := by
    have := daysInMonth_le_31 t.year t.month
    omega
  rw [read4_pad4 _ (by omega), read2_pad2 _ (by omega), read2_pad2 _ hdm]
  simp only [Option.bind_eq_bind, Option.some_bind]
  unfold mkValidDateTime
  rw [if_pos (by refine ⟨hm1, hm2, hd1, hd2, ?_, ?_, ?_⟩ <;> omega)]
  obtain ⟨h0, m0, s0⟩ := hmid
  cases t
  simp_all

/-- The formatted datetime has fifteen characters, as the parser dispatch
inspects. -/
theorem formatDateTimeChars_length (t : DateTime) :
    (formatDateTimeChars t).length = 15 := by
  simp [formatDateTimeChars, pad4, pad2]

theorem digitChar_ne_Z (n : Nat) : digitChar n ≠ 'Z' := by
  intro h
  have h1 := charDigit_digitChar n
  rw [h] at h1
  exact Option.noConfusion (h1.symm.trans (by decide : charDigit 'Z' = none))

theorem caldavTimeToTimestamp_mk (l : List Char) (h : l ≠ []) :
    caldavTimeToTimestamp (String.mk l) =
      match caldavParseChars l with
      | some t => t
      | none => DateTime.zero := by
  unfold caldavTimeToTimestamp
  rw [if_neg (by
    intro hs
    exact h (congrArg String.data hs))]

/-- Deserializing a serialized caldav timestamp recovers the instant:
the suffix dispatch selects the `Z` layout and parsing inverts formatting. -/
theorem caldavTimeToTimestamp_roundtrip_Z (t : DateTime) (h : t.Valid) :
    caldavTimeToTimestamp (makeCalDavTimeFromTimeStamp t) = t := by
  unfold makeCalDavTimeFromTimeStamp
  rw [caldavTimeToTimestamp_mk _ (by simp)]
  unfold caldavParseChars
  rw [if_neg (by rw [List.length_append, formatDateTimeChars_length]; omega)]
  rw [if_pos (by simp)]
  rw [parseLayoutDateTimeZ_format t h]

/-- Deserializing the unsuffixed layout also recovers the instant. -/
theorem caldavTimeToTimestamp_roundtrip_noZ (t : DateTime) (h : t.Valid) :
    caldavTimeToTimestamp (formatDateTimeNoZ t) = t := by
  unfold formatDateTimeNoZ
  rw [caldavTimeToTimestamp_mk _ (by
    intro hs
    have := congrArg List.length hs
    rw [formatDateTimeChars_length] at this
    simp at this)]
  unfold caldavParseChars
  rw [if_neg (by rw [formatDateTimeChars_length]; omega)]
  have hlast : (formatDateTimeChars t).getLast? = some (digitChar t.second) := rfl
  rw [if_neg (by
    rw [hlast]
    intro hz
    exact digitChar_ne_Z t.second (Option.some.inj hz))]
  rw [parseLayoutDateTime_format t h]

/-- Deserializing the date-only layout recovers the date at midnight UTC. -/
theorem caldavTimeToTimestamp_roundtrip_dateOnly (t : DateTime) (h : t.Valid)
    (hmid : t.hour = 0 ∧ t.minute = 0 ∧ t.second = 0) :
    caldavTimeToTimestamp (formatDateOnly t) = t := by
  unfold formatDateOnly
  rw [caldavTimeToTimestamp_mk _ (by simp [pad4, pad2])]
  unfold caldavParseChars
  rw [if_pos (by simp [pad4, pad2])]
  rw [parseLayoutDateOnly_format t h hmid]

/-- The empty string deserializes to the zero time. -/
theorem caldavTimeToTimestamp_empty : caldavTimeToTimestamp "" = DateTime.zero := rfl

/-! ## Claim theorems: sharing rights and link shares -/

/-- C1: for every sharing-relation entity (`ListUser`, and likewise the
`TeamNamespace` relation) and every authenticated principal that is a
`LinkSharing`, the capability checks `CanCreate`, `CanUpdate` and
`CanDelete` return `(false, nil)` — no error — regardless of the `Right`
stored on the link share and of whatever the admin oracles would answer. -/
theorem linkShare_sharing_management_denied
    (listIsAdmin : ListIsAdminFn) (userIsAdmin : Int → User → Bool × Option ModelErr)
    (lu : ListUser) (tn : TeamNamespace) (share : LinkSharing) :
    lu.CanCreate listIsAdmin (.linkShare share) = (false, none) ∧
    lu.CanUpdate listIsAdmin (.linkShare share) = (false, none) ∧
    lu.CanDelete listIsAdmin (.linkShare share) = (false, none) ∧
    tn.CanCreate userIsAdmin (.linkShare share) = (false, none) ∧
    tn.CanUpdate userIsAdmin (.linkShare share) = (false, none) ∧
    tn.CanDelete userIsAdmin (.linkShare share) = (false, none) :=
  ⟨rfl, rfl, rfl, rfl, rfl, rfl⟩

/-- C2: for a link share with `SharingType = WithPassword`, password
verification fails with `PasswordRequired` on an empty supplied password,
fails with `PasswordInvalid` when the bcrypt comparison against the stored
hash mismatches, and succeeds with no error when the comparison succeeds
(the correct password). -/
theorem verifyLinkSharePassword_cases
    (bcryptCompare : String → String → BcryptResult)
    (share : LinkSharing) (password : String)
    (_hty : share.SharingType = .withPassword) :
    (password = "" →
      VerifyLinkSharePassword bcryptCompare share password
        = some (.linkSharePasswordRequired share.ID)) ∧
    (password ≠ "" → bcryptCompare share.Password password = .mismatch →
      VerifyLinkSharePassword bcryptCompare share password
        = some (.linkSharePasswordInvalid share.ID)) ∧
    (password ≠ "" → bcryptCompare share.Password password = .ok →
      VerifyLinkSharePassword bcryptCompare share password = none) := by
  refine ⟨?_, ?_, ?_⟩
  · intro h
    simp [VerifyLinkSharePassword, h]
  · intro h hm
    simp [VerifyLinkSharePassword, h, hm]
  · intro h hk
    simp [VerifyLinkSharePassword, h, hk]

/-- C2 witness: the three behaviors at concrete inputs. -/
theorem verifyLinkSharePassword_cases_witness :
    VerifyLinkSharePassword bcryptToy shareWithPassword ""
      = some (.linkSharePasswordRequired 1) ∧
    VerifyLinkSharePassword bcryptToy shareWithPassword "wrong"
      = some (.linkSharePasswordInvalid 1) ∧
    VerifyLinkSharePassword bcryptToy shareWithPassword "1234" = none :=
  ⟨(verifyLinkSharePassword_cases bcryptToy shareWithPassword "" rfl).1 rfl,
   (verifyLinkSharePassword_cases bcryptToy shareWithPassword "wrong" rfl).2.1
     (by decide) (by decide),
   (verifyLinkSharePassword_cases bcryptToy shareWithPassword "1234" rfl).2.2
     (by decide) (by decide)⟩

/-- C5 counterexample: `GetID` — the `web.Auth` identity of a `LinkSharing`
principal — returns the share's own (positive) id, not its negation: for
the share with ID 5 it returns 5, not −5. -/
theorem getID_not_negated_counterexample :
    Auth.GetID (.linkShare shareFive) = 5 ∧
    ¬ Auth.GetID (.linkShare shareFive) = -5 := by
  constructor
  · rfl
  · decide

/-- C5 amended: the negated identity `-shareID` is what `getUserID`
returns and what the pseudo-user built by `toUser` carries; for positive
share ids it is negative and collides with no (positive) registered-user
identity. `GetID` itself returns the share's own id. -/
theorem linkShare_pseudo_identity_negative (share : LinkSharing)
    (h : 0 < share.ID) :
    share.getUserID = -share.ID ∧
    share.toUser.id = -share.ID ∧
    Auth.GetID (.linkShare share) = share.ID ∧
    share.getUserID < 0 ∧
    (∀ uid : Int, 0 < uid → share.getUserID ≠ uid) := by
  have hg : share.getUserID = -share.ID := by
    unfold LinkSharing.getUserID
    ring
  refine ⟨hg, ?_, rfl, ?_, ?_⟩
  · unfold LinkSharing.toUser
    simpa using hg
  · omega
  · intro uid hu
    omega

/-- C5 amended witness at the concrete share with ID 5. -/
theorem linkShare_pseudo_identity_negative_witness :
    shareFive.getUserID = -shareFive.ID ∧ shareFive.getUserID < 0 :=
  ⟨(linkShare_pseudo_identity_negative shareFive (by decide)).1,
   (linkShare_pseudo_identity_negative shareFive (by decide)).2.2.2.1⟩

/-! ## Claim theorems: sharing-relation creation -/

/-- C6: given a valid right and resolvable list and user,
`ListUser.Create` fails with `AlreadyHasAccess` exactly when the resolved
user owns the list or a `users_lists` row for (list, user) already exists;
in either failure case the state is unchanged (no row inserted), and
otherwise the single new row is inserted. The analogous
`NamespaceUser.Create` satisfies the same contract against the namespace
tables. -/
theorem sharing_create_alreadyHasAccess_iff
    (db : DBState) (lu : ListUser) (l : ListRec) (u : User)
    (nu : NamespaceUser) (n : NamespaceRec) (u2 : User)
    (hr : rightIsValid lu.Right = true)
    (hl : getListSimpleByID db lu.ListID = .ok l)
    (hu : getUserByUsername db lu.Username = .ok u)
    (hr2 : rightIsValid nu.Right = true)
    (hn : getNamespaceByID db nu.NamespaceID = .ok n)
    (hu2 : getUserByUsername db nu.Username = .ok u2) :
    ((ListUser.Create db lu).1 = some (.userAlreadyHasAccess u.id lu.ListID)
      ↔ (l.ownerID = u.id ∨
        db.listUserRows.any (fun r => r.listID == lu.ListID && r.userID == u.id) = true)) ∧
    ((ListUser.Create db lu).1 ≠ none → (ListUser.Create db lu).2 = db) ∧
    ((ListUser.Create db lu).1 = none → (ListUser.Create db lu).2
      = { db with listUserRows := db.listUserRows ++ [⟨lu.ListID, u.id, lu.Right⟩] }) ∧
    ((NamespaceUser.Create db nu).1
        = some (.userAlreadyHasNamespaceAccess u2.id nu.NamespaceID)
      ↔ (n.ownerID = u2.id ∨
        db.namespaceUserRows.any
          (fun r => r.namespaceID == nu.NamespaceID && r.userID == u2.id) = true)) ∧
    ((NamespaceUser.Create db nu).1 ≠ none → (NamespaceUser.Create db nu).2 = db) ∧
    ((NamespaceUser.Create db nu).1 = none → (NamespaceUser.Create db nu).2
      = { db with namespaceUserRows :=
          db.namespaceUserRows ++ [⟨nu.NamespaceID, u2.id, nu.Right⟩] }) := by
  have h1 : ((ListUser.Create db lu).1 = some (.userAlreadyHasAccess u.id lu.ListID)
      ↔ (l.ownerID = u.id ∨
        db.listUserRows.any (fun r => r.listID == lu.ListID && r.userID == u.id) = true)) ∧
      ((ListUser.Create db lu).1 ≠ none → (ListUser.Create db lu).2 = db) ∧
      ((ListUser.Create db lu).1 = none → (ListUser.Create db lu).2
        = { db with listUserRows := db.listUserRows ++ [⟨lu.ListID, u.id, lu.Right⟩] }) := by
    unfold ListUser.Create
    rw [if_pos hr, hl, hu]
    dsimp only
    by_cases ho : l.ownerID = u.id
    · rw [if_pos ho]
      simp [ho]
    · rw [if_neg ho]
      by_cases hrow : db.listUserRows.any
          (fun r => r.listID == lu.ListID && r.userID == u.id) = true
      · rw [if_pos hrow]
        simp [ho, hrow]
      · rw [if_neg hrow]
        simp [ho, hrow]
  have h2 : ((NamespaceUser.Create db nu).1
        = some (.userAlreadyHasNamespaceAccess u2.id nu.NamespaceID)
      ↔ (n.ownerID = u2.id ∨
        db.namespaceUserRows.any
          (fun r => r.namespaceID == nu.NamespaceID && r.userID == u2.id) = true)) ∧
      ((NamespaceUser.Create db nu).1 ≠ none → (NamespaceUser.Create db nu).2 = db) ∧
      ((NamespaceUser.Create db nu).1 = none → (NamespaceUser.Create db nu).2
        = { db with namespaceUserRows :=
            db.namespaceUserRows ++ [⟨nu.NamespaceID, u2.id, nu.Right⟩] }) := by
    unfold NamespaceUser.Create
    rw [if_pos hr2, hn, hu2]
    dsimp only
    by_cases ho : n.ownerID = u2.id
    · rw [if_pos ho]
      simp [ho]
    · rw [if_neg ho]
      by_cases hrow : db.namespaceUserRows.any
          (fun r => r.namespaceID == nu.NamespaceID && r.userID == u2.id) = true
      · rw [if_pos hrow]
        simp [ho, hrow]
      · rw [if_neg hrow]
        simp [ho, hrow]
  exact ⟨h1.1, h1.2.1, h1.2.2, h2.1, h2.2.1, h2.2.2⟩

/-- C6 witness: inserting "bob" (who has only team access) succeeds, and
the accompanying iff characterizes the owner failure. -/
theorem sharing_create_alreadyHasAccess_iff_witness :
    ((ListUser.Create dbWitness ⟨0, "owner", 0, 10, 1⟩).1
      = some (.userAlreadyHasAccess 100 10)) ∧
    ((NamespaceUser.Create dbWitness ⟨0, "bob", 0, 20, 1⟩).1 = none) := by
  have h := sharing_create_alreadyHasAccess_iff dbWitness
    ⟨0, "owner", 0, 10, 1⟩ ⟨10, 100⟩ ⟨100, "owner"⟩
    ⟨0, "bob", 0, 20, 1⟩ ⟨20, 100⟩ ⟨101, "bob"⟩
    (by decide) rfl rfl (by decide) rfl rfl
  refine ⟨h.1.mpr (Or.inl rfl), ?_⟩
  by_contra hne
  have := h.2.2.2.2.1 hne
  revert this
  decide

/-- C10: the duplicate-access check of `ListUser.Create` inspects only
list ownership and existing direct `users_lists` rows: a user whose only
access comes through a team relation on the list is inserted as a direct
`ListUser` row, with no `AlreadyHasAccess` failure, whatever the team
tables contain. -/
theorem listUser_create_ignores_team_access
    (db : DBState) (lu : ListUser) (l : ListRec) (u : User) (teamID : Int)
    (hr : rightIsValid lu.Right = true)
    (hl : getListSimpleByID db lu.ListID = .ok l)
    (hu : getUserByUsername db lu.Username = .ok u)
    (howner : l.ownerID ≠ u.id)
    (hnorow : db.listUserRows.any
      (fun r => r.listID == lu.ListID && r.userID == u.id) = false)
    (_hteam : (lu.ListID, teamID) ∈ db.listTeamRows
      ∧ (teamID, u.id) ∈ db.teamMemberRows) :
    (ListUser.Create db lu).1 = none ∧
    (ListUser.Create db lu).2.listUserRows
      = db.listUserRows ++ [⟨lu.ListID, u.id, lu.Right⟩] := by
  unfold ListUser.Create
  rw [hl, hu]
  simp [hr, howner, hnorow]

/-- C10 witness: "bob" holds team access to list 10 through team 7 and no
direct row; `Create` succeeds and inserts the direct row. -/
theorem listUser_create_ignores_team_access_witness :
    (ListUser.Create dbWitness ⟨0, "bob", 0, 10, 1⟩).1 = none ∧
    (ListUser.Create dbWitness ⟨0, "bob", 0, 10, 1⟩).2.listUserRows
      = [⟨10, 102, 0⟩, ⟨10, 101, 1⟩] := by
  have h := listUser_create_ignores_team_access dbWitness
    ⟨0, "bob", 0, 10, 1⟩ ⟨10, 100⟩ ⟨101, "bob"⟩ 7
    (by decide) rfl rfl (by decide) (by decide)
    ⟨by decide, by decide⟩
  exact ⟨h.1, h.2⟩

/-! ## Codec lemmas: map readout of the serialized properties -/

theorem foldl_ite_list {α β : Type} (f : β → α → β) (acc : β) (c : Prop)
    [Decidable c] (l1 l2 : List α) :
    List.foldl f acc (if c then l1 else l2)
      = if c then List.foldl f acc l1 else List.foldl f acc l2 := by
  split <;> rfl

theorem lastLookup_summary (sha : String → String) (t : Todo) :
    lastLookup (serializeVTODOProps sha t) "SUMMARY" = some t.Summary := by
  cases horg : t.Organizer <;>
    simp [serializeVTODOProps, getCaldavColorProps, horg, lastLookup,
      List.foldl_append, foldl_ite_list, ite_self]

theorem lastLookup_dtstamp (sha : String → String) (t : Todo) :
    lastLookup (serializeVTODOProps sha t) "DTSTAMP"
      = some (makeCalDavTimeFromTimeStamp t.Timestamp) := by
  cases horg : t.Organizer <;>
    simp [serializeVTODOProps, getCaldavColorProps, horg, lastLookup,
      List.foldl_append, foldl_ite_list, ite_self]

theorem lastLookup_description (sha : String → String) (t : Todo) :
    lastLookup (serializeVTODOProps sha t) "DESCRIPTION" =
      if t.Description ≠ "" then
        some (String.mk (escapeNewlines t.Description.data))
      else none := by
  cases horg : t.Organizer <;>
    simp [serializeVTODOProps, getCaldavColorProps, horg, lastLookup,
      List.foldl_append, foldl_ite_list, ite_self]

theorem lastLookup_status (sha : String → String) (t : Todo) :
    lastLookup (serializeVTODOProps sha t) "STATUS" =
      if 0 < t.Completed.toUnix then some "COMPLETED" else none := by
  cases horg : t.Organizer <;>
    simp [serializeVTODOProps, getCaldavColorProps, horg, lastLookup,
      List.foldl_append, foldl_ite_list, ite_self]

theorem lastLookup_completed (sha : String → String) (t : Todo) :
    lastLookup (serializeVTODOProps sha t) "COMPLETED" =
      if 0 < t.Completed.toUnix then
        some (makeCalDavTimeFromTimeStamp t.Completed)
      else none := by
  cases horg : t.Organizer <;>
    simp [serializeVTODOProps, getCaldavColorProps, horg, lastLookup,
      List.foldl_append, foldl_ite_list, ite_self]

theorem lastLookup_due (sha : String → String) (t : Todo) :
    lastLookup (serializeVTODOProps sha t) "DUE" =
      if 0 < t.DueDate.toUnix then some (makeCalDavTimeFromTimeStamp t.DueDate)
      else none := by
  cases horg : t.Organizer <;>
    simp [serializeVTODOProps, getCaldavColorProps, horg, lastLookup,
      List.foldl_append, foldl_ite_list, ite_self]

theorem lastLookup_dtstart (sha : String → String) (t : Todo) :
    lastLookup (serializeVTODOProps sha t) "DTSTART" =
      if 0 < t.Start.toUnix then some (makeCalDavTimeFromTimeStamp t.Start)
      else none := by
  cases horg : t.Organizer <;>
    simp [serializeVTODOProps, getCaldavColorProps, horg, lastLookup,
      List.foldl_append, foldl_ite_list, ite_self]

theorem lastLookup_duration (sha : String → String) (t : Todo) :
    lastLookup (serializeVTODOProps sha t) "DURATION" =
      if 0 < t.Start.toUnix then
        (if t.Duration ≠ 0 ∧ t.DueDate.toUnix = 0 then
          some ("PT" ++ formatDuration t.Duration) else none)
      else none := by
  cases horg : t.Organizer <;>
    simp [serializeVTODOProps, getCaldavColorProps, horg, lastLookup,
      List.foldl_append, foldl_ite_list, ite_self]

theorem lastLookup_priority (sha : String → String) (t : Todo) :
    lastLookup (serializeVTODOProps sha t) "PRIORITY" =
      if t.Priority ≠ 0 then some (toString (mapPriorityToCaldav t.Priority))
      else none := by
  cases horg : t.Organizer <;>
    simp [serializeVTODOProps, getCaldavColorProps, horg, lastLookup,
      List.foldl_append, foldl_ite_list, ite_self]

/-! ## Codec lemmas: escaping roundtrip -/

theorem replacePair_cons_ne (a b c : Char) (r : List Char) (l : List Char)
    (h : c ≠ a) : replacePair a b r (c :: l) = c :: replacePair a b r l := by
  cases l with
  | nil => simp [replacePair]
  | cons d rest => simp [replacePair, h]

theorem replacePair_cons_pair (a b : Char) (r : List Char) (l : List Char) :
    replacePair a b r (a :: b :: l) = r ++ replacePair a b r l := by
  simp [replacePair]

theorem replacePair_pair_ne (a b b2 : Char) (r : List Char) (l : List Char)
    (h : b2 ≠ b) :
    replacePair a b r (a :: b2 :: l) = a :: replacePair a b r (b2 :: l) := by
  simp [replacePair, h]

theorem escapeNewlines_newline (l : List Char) :
    escapeNewlines ('\n' :: l) = '\\' :: 'n' :: escapeNewlines l := by
  simp [escapeNewlines]

theorem escapeNewlines_other (c : Char) (l : List Char)
    (h1 : c ≠ '\r') (h2 : c ≠ '\n') :
    escapeNewlines (c :: l) = c :: escapeNewlines l := by
  simp [escapeNewlines, h1, h2]

/-- The comma-unescaping pass leaves an escaped description unchanged:
every backslash it contains is followed by `n`. -/
theorem replaceComma_escape (l : List Char)
    (hb : '\\' ∉ l) (hr : '\r' ∉ l) :
    replacePair '\\' ',' [','] (escapeNewlines l) = escapeNewlines l := by
  induction l with
  | nil => simp [escapeNewlines, replacePair]
  | cons c rest ih =>
    have hb2 : '\\' ∉ rest := fun h => hb (List.mem_cons_of_mem _ h)
    have hr2 : '\r' ∉ rest := fun h => hr (List.mem_cons_of_mem _ h)
    have hcb : c ≠ '\\' := fun h => hb (h ▸ List.mem_cons_self c rest)
    have hcr : c ≠ '\r' := fun h => hr (h ▸ List.mem_cons_self c rest)
    by_cases hcn : c = '\n'
    · subst hcn
      rw [escapeNewlines_newline, replacePair_pair_ne _ _ _ _ _ (by decide),
        replacePair_cons_ne _ _ _ _ _ (by decide), ih hb2 hr2]
    · rw [escapeNewlines_other c rest hcr hcn,
        replacePair_cons_ne _ _ _ _ _ hcb, ih hb2 hr2]

/-- The newline-unescaping pass inverts the escaping. -/
theorem replaceEscapedNewline_escape (l : List Char)
    (hb : '\\' ∉ l) (hr : '\r' ∉ l) :
    replacePair '\\' 'n' ['\n'] (escapeNewlines l) = l := by
  induction l with
  | nil => simp [escapeNewlines, replacePair]
  | cons c rest ih =>
    have hb2 : '\\' ∉ rest := fun h => hb (List.mem_cons_of_mem _ h)
    have hr2 : '\r' ∉ rest := fun h => hr (List.mem_cons_of_mem _ h)
    have hcb : c ≠ '\\' := fun h => hb (h ▸ List.mem_cons_self c rest)
    have hcr : c ≠ '\r' := fun h => hr (h ▸ List.mem_cons_self c rest)
    by_cases hcn : c = '\n'
    · subst hcn
      rw [escapeNewlines_newline, replacePair_cons_pair, ih hb2 hr2]
      rfl
    · rw [escapeNewlines_other c rest hcr hcn,
        replacePair_cons_ne _ _ _ _ _ hcb, ih hb2 hr2]

/-- Unescaping inverts escaping on descriptions without backslashes or
carriage returns (the "modulo documented escaping" caveat). -/
theorem unescape_escape (s : String)
    (hb : '\\' ∉ s.data) (hr : '\r' ∉ s.data) :
    unescapeDescription (String.mk (escapeNewlines s.data)) = s := by
  unfold unescapeDescription
  rw [show (String.mk (escapeNewlines s.data)).data = escapeNewlines s.data from rfl]
  rw [replaceComma_escape _ hb hr, replaceEscapedNewline_escape _ hb hr]

/-! ## Codec lemmas: duration and priority parsing -/

theorem goParseDuration_PT (x : String) : goParseDuration ("PT" ++ x) = none := by
  have h : ("PT" ++ x).data = 'P' :: 'T' :: x.data := by
    simp [String.data_append]
  simp [goParseDuration, h, goDurationLoop, goDurationComponent, takeDigits, charDigit]

theorem goParseDuration_empty : goParseDuration "" = none := rfl

theorem mapPriorityToCaldav_cases (p : Int) :
    mapPriorityToCaldav p = 0 ∨ mapPriorityToCaldav p = 1 ∨
    mapPriorityToCaldav p = 5 ∨ mapPriorityToCaldav p = 9 := by
  unfold mapPriorityToCaldav
  split_ifs <;> simp

/-! ## Claim theorems: CalDAV codec -/

theorem unescape_empty : unescapeDescription "" = "" := by
  simp [unescapeDescription, replacePair]

set_option maxHeartbeats 1000000 in
/-- Deserializing the serialized property pairs always succeeds, with the
fields read back through the Go map; the end date stays zero because the
emitted ISO `DURATION` value does not parse as a Go duration. -/
theorem ParseTaskFromVTODO_serialize (sha : String → String) (t : Todo) :
    ParseTaskFromVTODO (serializeVTODOProps sha t) = .ok
      { UID := taskMapGet (serializeVTODOProps sha t) "UID"
        Title := taskMapGet (serializeVTODOProps sha t) "SUMMARY"
        Description := unescapeDescription (taskMapGet (serializeVTODOProps sha t) "DESCRIPTION")
        Priority := (if t.Priority ≠ 0 then
          parseVTODOPriority (mapPriorityToCaldav t.Priority) else 0)
        DueDate := caldavTimeToTimestamp (taskMapGet (serializeVTODOProps sha t) "DUE")
        Updated := caldavTimeToTimestamp (taskMapGet (serializeVTODOProps sha t) "DTSTAMP")
        StartDate := caldavTimeToTimestamp (taskMapGet (serializeVTODOProps sha t) "DTSTART")
        DoneAt := caldavTimeToTimestamp (taskMapGet (serializeVTODOProps sha t) "COMPLETED")
        Done := taskMapGet (serializeVTODOProps sha t) "STATUS" = "COMPLETED"
        EndDate := DateTime.zero } := by
  have hdur : (goParseDuration (taskMapGet (serializeVTODOProps sha t) "DURATION")).getD 0 = 0 := by
    rw [taskMapGet, lastLookup_duration]
    split_ifs with h1 h2
    · simp [goParseDuration_PT]
    · simp [goParseDuration_empty]
    · simp [goParseDuration_empty]
  have hprio : (if taskMapHas (serializeVTODOProps sha t) "PRIORITY" then
      match parseIntGo (taskMapGet (serializeVTODOProps sha t) "PRIORITY") with
      | some n => Except.ok (parseVTODOPriority n)
      | none => Except.error "invalid PRIORITY"
    else Except.ok 0) = Except.ok (if t.Priority ≠ 0 then
      parseVTODOPriority (mapPriorityToCaldav t.Priority) else 0) := by
    by_cases hp : t.Priority = 0
    · simp [taskMapHas, lastLookup_priority, hp]
    · rw [taskMapHas, taskMapGet, lastLookup_priority]
      have hps : parseIntGo (toString (mapPriorityToCaldav t.Priority))
          = some (mapPriorityToCaldav t.Priority) := by
        rcases mapPriorityToCaldav_cases t.Priority with h | h | h | h <;>
          rw [h] <;> decide
      simp [hp, hps]
  unfold ParseTaskFromVTODO
  dsimp only
  rw [hprio]
  dsimp only
  rw [hdur]
  rw [if_neg (by simp)]

set_option maxHeartbeats 1000000 in
/-- C3 (amended): for a todo with no recurrence, deserializing the
serialized VTODO yields a task whose Title equals the Summary, whose
Description equals the original modulo the documented newline/comma
escaping (here: descriptions without raw backslashes or carriage
returns), whose Done state matches, and whose set (positive-Unix)
due/start/completed timestamps are recovered exactly at second precision;
the deserialized last-modified field is read from DTSTAMP, so it equals
the original `Updated` exactly when the todo's DTSTAMP timestamp equals
its last-modified time (the hypothesis `heq`, which the exporter
`GetCaldavTodosForTasks` always establishes). -/
theorem caldav_roundtrip_preserved (sha : String → String) (t : Todo)
    (hts : t.Timestamp.Valid)
    (heq : t.Timestamp = t.Updated)
    (hstart : 0 < t.Start.toUnix → t.Start.Valid)
    (hdue : 0 < t.DueDate.toUnix → t.DueDate.Valid)
    (hcomp : 0 < t.Completed.toUnix → t.Completed.Valid)
    (hdesc1 : '\\' ∉ t.Description.data) (hdesc2 : '\r' ∉ t.Description.data)
    (_hnorec : t.RepeatAfter ≤ 0 ∧ t.RepeatMode ≠ .month) :
    ∃ task : Task,
      ParseTaskFromVTODO (serializeVTODOProps sha t) = .ok task ∧
      task.Title = t.Summary ∧
      task.Description = t.Description ∧
      (task.Done = true ↔ 0 < t.Completed.toUnix) ∧
      (0 < t.DueDate.toUnix → task.DueDate = t.DueDate) ∧
      (¬ 0 < t.DueDate.toUnix → task.DueDate = DateTime.zero) ∧
      (0 < t.Start.toUnix → task.StartDate = t.Start) ∧
      (¬ 0 < t.Start.toUnix → task.StartDate = DateTime.zero) ∧
      (0 < t.Completed.toUnix → task.DoneAt = t.Completed) ∧
      (¬ 0 < t.Completed.toUnix → task.DoneAt = DateTime.zero) ∧
      task.Updated = t.Updated := by
  refine ⟨_, ParseTaskFromVTODO_serialize sha t, ?_, ?_, ?_, ?_, ?_, ?_, ?_, ?_, ?_, ?_⟩
  · dsimp only
    rw [taskMapGet, lastLookup_summary]
    rfl
  · dsimp only
    by_cases hd : t.Description = ""
    · rw [taskMapGet, lastLookup_description, if_neg (by simp [hd])]
      rw [show (none : Option String).getD "" = "" from rfl, unescape_empty, hd]
    · rw [taskMapGet, lastLookup_description, if_pos hd]
      exact unescape_escape t.Description hdesc1 hdesc2
  · dsimp only
    rw [taskMapGet, lastLookup_status]
    by_cases hc : 0 < t.Completed.toUnix <;> simp [hc]
  · intro h
    dsimp only
    rw [taskMapGet, lastLookup_due, if_pos h]
    exact caldavTimeToTimestamp_roundtrip_Z _ (hdue h)
  · intro h
    dsimp only
    rw [taskMapGet, lastLookup_due, if_neg h]
    exact caldavTimeToTimestamp_empty
  · intro h
    dsimp only
    rw [taskMapGet, lastLookup_dtstart, if_pos h]
    exact caldavTimeToTimestamp_roundtrip_Z _ (hstart h)
  · intro h
    dsimp only
    rw [taskMapGet, lastLookup_dtstart, if_neg h]
    exact caldavTimeToTimestamp_empty
  · intro h
    dsimp only
    rw [taskMapGet, lastLookup_completed, if_pos h]
    exact caldavTimeToTimestamp_roundtrip_Z _ (hcomp h)
  · intro h
    dsimp only
    rw [taskMapGet, lastLookup_completed, if_neg h]
    exact caldavTimeToTimestamp_empty
  · dsimp only
    rw [taskMapGet, lastLookup_dtstamp]
    rw [show (some (makeCalDavTimeFromTimeStamp t.Timestamp)).getD ""
      = makeCalDavTimeFromTimeStamp t.Timestamp from rfl]
    rw [caldavTimeToTimestamp_roundtrip_Z _ hts]
    exact heq

/-- C3 counterexample: deserialization reads the task's last-modified
(`Updated`) from the DTSTAMP property, ignoring LAST-MODIFIED, so for the
todo above — serialized with LAST-MODIFIED 13:00 but DTSTAMP 12:00 — the
round trip yields `Updated` = 12:00 ≠ the todo's last-modified 13:00,
refuting the claim that all set timestamps (including last-modified) are
preserved. -/
theorem caldav_roundtrip_lastModified_counterexample :
    (ParseTaskFromVTODO (serializeVTODOProps (fun _ => "") todoStampMismatch)).toOption.map
        Task.Updated = some todoStampMismatch.Timestamp ∧
    todoStampMismatch.Timestamp ≠ todoStampMismatch.Updated := by
  constructor
  · rfl
  · decide

/-- C3 witness: the amended roundtrip at the concrete todo. -/
theorem caldav_roundtrip_preserved_witness :
    ∃ task : Task,
      ParseTaskFromVTODO (serializeVTODOProps (fun _ => "") todoRound) = .ok task ∧
      task.Title = todoRound.Summary ∧
      task.Description = todoRound.Description ∧
      (task.Done = true ↔ 0 < todoRound.Completed.toUnix) ∧
      (0 < todoRound.DueDate.toUnix → task.DueDate = todoRound.DueDate) ∧
      (¬ 0 < todoRound.DueDate.toUnix → task.DueDate = DateTime.zero) ∧
      (0 < todoRound.Start.toUnix → task.StartDate = todoRound.Start) ∧
      (¬ 0 < todoRound.Start.toUnix → task.StartDate = DateTime.zero) ∧
      (0 < todoRound.Completed.toUnix → task.DoneAt = todoRound.Completed) ∧
      (¬ 0 < todoRound.Completed.toUnix → task.DoneAt = DateTime.zero) ∧
      task.Updated = todoRound.Updated :=
  caldav_roundtrip_preserved (fun _ => "") todoRound (by decide) (by decide)
    (fun _ => by decide) (fun _ => by decide) (fun _ => by decide)
    (by decide) (by decide) (by decide)

/-- Membership in a conditionally-emitted segment. -/
theorem mem_ite_nil {α : Type} (a : α) (c : Prop) [Decidable c] (l : List α) :
    (a ∈ (if c then l else [])) ↔ c ∧ a ∈ l := by
  split <;> simp_all

/-- C4 (amended): a DURATION property is emitted exactly when the todo has
a set start date, a non-zero duration and a due date whose `Unix()` value
is exactly zero; the end date is never consulted, so todos with a set end
date can still emit DURATION. -/
theorem duration_emitted_iff (sha : String → String) (t : Todo) :
    ("DURATION" ∈ (serializeVTODOProps sha t).map Prod.fst) ↔
      (0 < t.Start.toUnix ∧ (t.Duration ≠ 0 ∧ t.DueDate.toUnix = 0)) := by
  cases horg : t.Organizer <;>
    simp [serializeVTODOProps, getCaldavColorProps, horg,
      apply_ite (List.map (Prod.fst (α := String) (β := String))), mem_ite_nil]

/-- C4 counterexample: `todoWithEnd` has a non-zero end date (Unix 200)
yet its serialization contains a DURATION property — the emission check
never looks at the end date. -/
theorem duration_with_end_date_counterexample :
    0 < todoWithEnd.End.toUnix ∧
    ("DURATION" ∈ (serializeVTODOProps (fun _ => "") todoWithEnd).map Prod.fst) := by
  constructor
  · decide
  · decide

/-- C7: caldav timestamp deserialization is total: the empty string and
every unparseable string map to the zero time with no error, and each of
the three supported layouts (unsuffixed datetime, `Z`-suffixed datetime,
bare date) is parsed back correctly. -/
theorem caldavTimeToTimestamp_total_spec :
    (caldavTimeToTimestamp "" = DateTime.zero) ∧
    (∀ s : String, s ≠ "" → caldavParseChars s.data = none →
      caldavTimeToTimestamp s = DateTime.zero) ∧
    (∀ t : DateTime, t.Valid →
      caldavTimeToTimestamp (formatDateTimeNoZ t) = t) ∧
    (∀ t : DateTime, t.Valid →
      caldavTimeToTimestamp (makeCalDavTimeFromTimeStamp t) = t) ∧
    (∀ t : DateTime, t.Valid → t.hour = 0 ∧ t.minute = 0 ∧ t.second = 0 →
      caldavTimeToTimestamp (formatDateOnly t) = t) := by
  refine ⟨caldavTimeToTimestamp_empty, ?_, ?_, ?_, ?_⟩
  · intro s hs hn
    unfold caldavTimeToTimestamp
    rw [if_neg hs, hn]
  · exact caldavTimeToTimestamp_roundtrip_noZ
  · exact caldavTimeToTimestamp_roundtrip_Z
  · exact caldavTimeToTimestamp_roundtrip_dateOnly

/-- C7 witness: the three layouts and an unparseable string at concrete
inputs. -/
theorem caldavTimeToTimestamp_total_spec_witness :
    caldavTimeToTimestamp "20230514T123045" = ⟨2023, 5, 14, 12, 30, 45⟩ ∧
    caldavTimeToTimestamp "20230514T123045Z" = ⟨2023, 5, 14, 12, 30, 45⟩ ∧
    caldavTimeToTimestamp "20230514" = ⟨2023, 5, 14, 0, 0, 0⟩ ∧
    caldavTimeToTimestamp "not-a-time" = DateTime.zero := by
  have h := caldavTimeToTimestamp_total_spec
  refine ⟨?_, ?_, ?_, ?_⟩
  · have e : formatDateTimeNoZ ⟨2023, 5, 14, 12, 30, 45⟩ = "20230514T123045" := rfl
    rw [← e]
    exact h.2.2.1 _ (by decide)
  · have e : makeCalDavTimeFromTimeStamp ⟨2023, 5, 14, 12, 30, 45⟩
        = "20230514T123045Z" := rfl
    rw [← e]
    exact h.2.2.2.1 _ (by decide)
  · have e : formatDateOnly ⟨2023, 5, 14, 0, 0, 0⟩ = "20230514" := rfl
    rw [← e]
    exact h.2.2.2.2 _ (by decide) (by decide)
  · exact h.2.1 "not-a-time" (by decide) rfl

/-! ## Importer lemmas -/

theorem extendsNoDel_refl (st : ImportState) : ExtendsNoDel st st :=
  ⟨[], by simp, by simp⟩

theorem extendsNoDel_trans (a b c : ImportState)
    (h1 : ExtendsNoDel a b) (h2 : ExtendsNoDel b c) : ExtendsNoDel a c := by
  obtain ⟨n1, e1, d1⟩ := h1
  obtain ⟨n2, e2, d2⟩ := h2
  refine ⟨n1 ++ n2, by simp [e2, e1], ?_⟩
  intro e he
  rcases List.mem_append.mp he with h | h
  · exact d1 e h
  · exact d2 e h

theorem createOp_ok_spec (mk : Nat → Ev) (st st2 : ImportState) (n : Nat)
    (h : createOp mk st = .ok (st2, n)) :
    st2.pending = st.pending ++ [mk n] ∧ st2.labelMap = st.labelMap ∧
    n = st.nextID + 1 ∧ st2.nextID = st.nextID + 1 := by
  unfold createOp at h
  rcases ho : st.oracle with _ | ⟨o, rest⟩ <;> rw [ho] at h
  · simp only [Except.ok.injEq, Prod.mk.injEq] at h
    obtain ⟨h1, h2⟩ := h
    subst h2
    rw [← h1]
    simp
  · rcases o with _ | e
    · simp only [Except.ok.injEq, Prod.mk.injEq] at h
      obtain ⟨h1, h2⟩ := h
      subst h2
      rw [← h1]
      simp
    · exact absurd h (by simp)

theorem createOp_extends (mk : Nat → Ev) (st st2 : ImportState) (n : Nat)
    (h : createOp mk st = .ok (st2, n))
    (hmk : ∀ i, isBucketDeletion (mk i) = false) : ExtendsNoDel st st2 := by
  obtain ⟨hp, _, _, _⟩ := createOp_ok_spec mk st st2 n h
  exact ⟨[mk n], hp, by simpa using hmk n⟩

theorem createOp_allNone (mk : Nat → Ev) (st : ImportState) (h : AllNone st) :
    ∃ st2 n, createOp mk st = .ok (st2, n) ∧ AllNone st2 := by
  unfold createOp
  rcases ho : st.oracle with _ | ⟨o, rest⟩
  · refine ⟨_, _, rfl, ?_⟩
    intro x hx
    simp at hx
  · have hno : o = none := h o (by rw [ho]; exact List.mem_cons_self o rest)
    subst hno
    refine ⟨_, _, rfl, ?_⟩
    intro x hx
    exact h x (by rw [ho]; exact List.mem_cons_of_mem _ hx)

/-- Success of an effectful fold when every body call succeeds and
preserves the invariant. -/
theorem foldlM_ok_of_all {α β : Type} (f : β → α → Except String β)
    (P : β → Prop) (hf : ∀ b a, P b → ∃ b2, f b a = .ok b2 ∧ P b2)
    (l : List α) : ∀ b, P b → ∃ b2, List.foldlM f b l = .ok b2 ∧ P b2 := by
  induction l with
  | nil =>
    intro b hb
    exact ⟨b, rfl, hb⟩
  | cons a rest ih =>
    intro b hb
    obtain ⟨b1, hfa, hb1⟩ := hf b a hb
    obtain ⟨b2, hrest, hb2⟩ := ih b1 hb1
    refine ⟨b2, ?_, hb2⟩
    rw [List.foldlM_cons, hfa]
    exact hrest

/-- A preorder preserved by every successful body call is preserved by a
successful effectful fold. -/
theorem foldlM_rel {α β : Type} (f : β → α → Except String β)
    (R : β → β → Prop) (hrefl : ∀ b, R b b)
    (htrans : ∀ a b c, R a b → R b c → R a c)
    (hf : ∀ b a b2, f b a = .ok b2 → R b b2) (l : List α) :
    ∀ b b2, List.foldlM f b l = .ok b2 → R b b2 := by
  induction l with
  | nil =>
    intro b b2 h
    obtain rfl : b = b2 := by
      rw [List.foldlM_nil] at h
      exact Except.ok.inj h
    exact hrefl b
  | cons a rest ih =>
    intro b b2 h
    rw [List.foldlM_cons] at h
    rcases hfa : f b a with e | b1 <;> rw [hfa] at h
    · rw [show ((Except.error e : Except String β) >>= fun b => List.foldlM f b rest)
        = Except.error e from rfl] at h
      cases h
    · exact htrans _ _ _ (hf b a b1 hfa) (ih b1 b2 h)

theorem foldlM_ok_rel {α β : Type} (f : β → α → Except String β)
    (P : β → Prop) (R : β → β → Prop) (hrefl : ∀ b, R b b)
    (htrans : ∀ a b c, R a b → R b c → R a c)
    (hf : ∀ b a, P b → ∃ b2, f b a = .ok b2 ∧ P b2 ∧ R b b2)
    (l : List α) : ∀ b, P b →
    ∃ b2, List.foldlM f b l = .ok b2 ∧ P b2 ∧ R b b2 := by
  induction l with
  | nil =>
    intro b hb
    exact ⟨b, rfl, hb, hrefl b⟩
  | cons a rest ih =>
    intro b hb
    obtain ⟨b1, hfa, hb1, hr1⟩ := hf b a hb
    obtain ⟨b2, hrest, hb2, hr2⟩ := ih b1 hb1
    refine ⟨b2, ?_, hb2, htrans _ _ _ hr1 hr2⟩
    rw [List.foldlM_cons, hfa]
    exact hrest

theorem runRelated_ok (listID taskID kind : Nat) (st : ImportState)
    (rt : SRelated) (h : AllNone st) :
    ∃ st2, runRelated listID taskID kind st rt = .ok st2 ∧ AllNone st2
      ∧ ExtendsNoDel st st2 := by
  unfold runRelated
  by_cases hz : rt.id = 0
  · rw [if_pos hz]
    obtain ⟨sta, na, hca, ha⟩ := createOp_allNone _ st h
    rw [hca]
    dsimp only
    obtain ⟨stb, nb, hcb, hb⟩ := createOp_allNone _ sta ha
    rw [hcb]
    exact ⟨stb, rfl, hb, extendsNoDel_trans st sta stb
      (createOp_extends _ _ _ _ hca (fun i => rfl))
      (createOp_extends _ _ _ _ hcb (fun i => rfl))⟩
  · rw [if_neg hz]
    obtain ⟨sta, na, hca, ha⟩ := createOp_allNone _ st h
    rw [hca]
    exact ⟨sta, rfl, ha, createOp_extends _ _ _ _ hca (fun i => rfl)⟩

theorem runAttachment_ok (taskID : Nat) (st : ImportState) (a : SAttachment)
    (h : AllNone st) :
    ∃ st2, runAttachment taskID st a = .ok st2 ∧ AllNone st2
      ∧ ExtendsNoDel st st2 := by
  unfold runAttachment
  by_cases hc : a.fileContent ≠ []
  · rw [if_pos hc]
    obtain ⟨sta, na, hca, ha⟩ := createOp_allNone _ st h
    rw [hca]
    exact ⟨sta, rfl, ha, createOp_extends _ _ _ _ hca (fun i => rfl)⟩
  · rw [if_neg hc]
    exact ⟨st, rfl, h, extendsNoDel_refl st⟩

theorem runLabel_ok (taskID : Nat) (st : ImportState) (lb : SLabel)
    (h : AllNone st) :
    ∃ st2, runLabel taskID st lb = .ok st2 ∧ AllNone st2
      ∧ ExtendsNoDel st st2 := by
  unfold runLabel
  dsimp only
  rcases hmap : List.lookup (lb.title ++ lb.hexColor) st.labelMap with _ | id
  · dsimp only
    obtain ⟨sta, na, hca, ha⟩ := createOp_allNone _ st h
    rw [hca]
    dsimp only
    obtain ⟨stb, nb, hcb, hb⟩ := createOp_allNone _
      { sta with labelMap := sta.labelMap ++ [(lb.title ++ lb.hexColor, na)] }
      (by intro x hx; exact ha x hx)
    rw [hcb]
    refine ⟨stb, rfl, hb, extendsNoDel_trans _ _ _
      (createOp_extends _ _ _ _ hca (fun i => rfl))
      (extendsNoDel_trans _ _ _ ⟨[], by simp, by simp⟩
        (createOp_extends _ _ _ _ hcb (fun i => rfl)))⟩
  · dsimp only
    obtain ⟨sta, na, hca, ha⟩ := createOp_allNone _ st h
    rw [hca]
    exact ⟨sta, rfl, ha, createOp_extends _ _ _ _ hca (fun i => rfl)⟩

theorem runTaskExtras_ok (listID taskID : Nat) (t : STask)
    (st : ImportState) (h : AllNone st) :
    ∃ st2, runTaskExtras listID taskID t st = .ok st2 ∧ AllNone st2
      ∧ ExtendsNoDel st st2 := by
  unfold runTaskExtras
  obtain ⟨st1, hrel, h1, hx1⟩ := foldlM_ok_rel _ AllNone ExtendsNoDel
    extendsNoDel_refl extendsNoDel_trans
    (fun st kt hst => foldlM_ok_rel _ AllNone ExtendsNoDel
      extendsNoDel_refl extendsNoDel_trans
      (fun st rt hst => runRelated_ok listID taskID kt.1 st rt hst)
      kt.2 st hst)
    t.related st h
  rw [hrel]
  dsimp only
  obtain ⟨st2, hatt, h2, hx2⟩ := foldlM_ok_rel _ AllNone ExtendsNoDel
    extendsNoDel_refl extendsNoDel_trans
    (fun st a hst => runAttachment_ok taskID st a hst)
    t.attachments st1 h1
  rw [hatt]
  dsimp only
  obtain ⟨st3, hlab, h3, hx3⟩ := foldlM_ok_rel _ AllNone ExtendsNoDel
    extendsNoDel_refl extendsNoDel_trans
    (fun st lb hst => runLabel_ok taskID st lb hst) t.labels st2 h2
  exact ⟨st3, hlab, h3, extendsNoDel_trans _ _ _ hx1
    (extendsNoDel_trans _ _ _ hx2 hx3)⟩

/-- A successful `runTask` under an all-success oracle: the resulting flag
is exactly the old flag or-ed with this task's needs-default-bucket test,
and only non-deletion events are appended. -/
theorem runTask_ok (listID : Nat) (bucketMap : List (Nat × Nat))
    (p : ImportState × Bool) (t : STask) (h : AllNone p.1) :
    ∃ st2, runTask listID bucketMap p t
        = .ok (st2, p.2 || taskNeedsDefaultBucket bucketMap t.bucketID)
      ∧ AllNone st2 ∧ ExtendsNoDel p.1 st2 := by
  unfold runTask
  obtain ⟨sta, na, hca, ha⟩ := createOp_allNone
    (fun i => Ev.taskCreated i listID (remapBucketID bucketMap t.bucketID)) p.1 h
  rw [hca]
  dsimp only
  obtain ⟨stb, hex, hb, hxb⟩ := runTaskExtras_ok listID na t sta ha
  rw [hex]
  exact ⟨stb, rfl, hb, extendsNoDel_trans _ _ _
    (createOp_extends _ _ _ _ hca (fun i => rfl)) hxb⟩

/-- The bucket-creation fold: builds the old-id→new-id map with positive
new ids, key list equal to the input bucket list, appending only
non-deletion events. -/
theorem bucketFold_chars (listID : Nat) (bl : List Nat) :
    ∀ (st : ImportState) (acc : List (Nat × Nat)), AllNone st →
    (∀ pr ∈ acc, 0 < pr.2) →
    ∃ st2 bm, List.foldlM (runBucket listID) (st, acc) bl = .ok (st2, bm)
      ∧ AllNone st2 ∧ ExtendsNoDel st st2
      ∧ (∀ pr ∈ bm, 0 < pr.2)
      ∧ bm.map Prod.fst = acc.map Prod.fst ++ bl := by
  induction bl with
  | nil =>
    intro st acc h hacc
    exact ⟨st, acc, rfl, h, extendsNoDel_refl st, hacc, by simp⟩
  | cons old rest ih =>
    intro st acc h hacc
    obtain ⟨sta, na, hca, ha⟩ := createOp_allNone
      (fun i => Ev.bucketCreated i listID) st h
    obtain ⟨hpend, hlm, hn, hn2⟩ := createOp_ok_spec _ _ _ _ hca
    obtain ⟨st2, bm, hrest, h2, hx2, hvals, hkeys⟩ :=
      ih sta (acc ++ [(old, na)]) ha
      (by
        intro pr hpr
        rcases List.mem_append.mp hpr with hh | hh
        · exact hacc pr hh
        · simp at hh
          subst hh
          omega)
    refine ⟨st2, bm, ?_, h2, extendsNoDel_trans _ _ _
      (createOp_extends _ _ _ _ hca (fun i => rfl)) hx2, hvals, ?_⟩
    · rw [List.foldlM_cons]
      unfold runBucket
      rw [hca]
      exact hrest
    · rw [hkeys]
      simp

/-- The task fold: the final needs-default-bucket flag is the disjunction
of the per-task tests, and only non-deletion events are appended. -/
theorem taskFold_chars (listID : Nat) (bm : List (Nat × Nat))
    (tasks : List STask) :
    ∀ (st : ImportState) (needs : Bool), AllNone st →
    ∃ st2, List.foldlM (runTask listID bm) (st, needs) tasks
      = .ok (st2, needs || tasks.any (fun t => taskNeedsDefaultBucket bm t.bucketID))
      ∧ AllNone st2 ∧ ExtendsNoDel st st2 := by
  induction tasks with
  | nil =>
    intro st needs h
    refine ⟨st, ?_, h, extendsNoDel_refl st⟩
    simp only [List.foldlM_nil, List.any_nil, Bool.or_false]
    rfl
  | cons t rest ih =>
    intro st needs h
    obtain ⟨sta, hta, ha, hxa⟩ := runTask_ok listID bm (st, needs) t h
    obtain ⟨st2, hrest, h2, hx2⟩ :=
      ih sta (needs || taskNeedsDefaultBucket bm t.bucketID) ha
    refine ⟨st2, ?_, h2, extendsNoDel_trans _ _ _ hxa hx2⟩
    rw [List.foldlM_cons, hta]
    show List.foldlM (runTask listID bm)
      (sta, needs || taskNeedsDefaultBucket bm t.bucketID) rest = _
    rw [hrest]
    simp [Bool.or_assoc]

theorem lookup_isSome_iff_mem (l : List (Nat × Nat)) (k : Nat) :
    (List.lookup k l).isSome = true ↔ k ∈ l.map Prod.fst := by
  induction l with
  | nil => simp [List.lookup]
  | cons a rest ih =>
    by_cases hk : k = a.1
    · simp [List.lookup, hk]
    · have hb : (k == a.1) = false := by simp [hk]
      simp [List.lookup, hb, ih, hk]

theorem mem_of_lookup (l : List (Nat × Nat)) (k v : Nat)
    (h : List.lookup k l = some v) : (k, v) ∈ l := by
  induction l with
  | nil => cases h
  | cons a rest ih =>
    by_cases hk : k = a.1
    · have hb : (k == a.1) = true := by simp [hk]
      simp only [List.lookup, hb] at h
      obtain rfl : a.2 = v := Option.some.inj h
      simp [hk]
    · have hb : (k == a.1) = false := by simp [hk]
      simp only [List.lookup, hb] at h
      exact List.mem_cons_of_mem _ (ih h)

/-- A successful `runList` under an all-success oracle appends a batch of
events that contains a bucket deletion exactly when every imported task
referenced an imported bucket (no task fell back to the auto-created
default bucket); the only deletable bucket is the default one. -/
theorem runList_chars (namespaceID : Nat) (st : ImportState) (l : SList)
    (h : AllNone st) :
    ∃ st2 new listID dbid,
      runList namespaceID st l = .ok st2 ∧ AllNone st2 ∧
      st2.pending = st.pending ++ new ∧
      Ev.defaultBucketCreated dbid listID ∈ new ∧
      (∀ i, Ev.bucketDeleted i ∈ new → i = dbid) ∧
      ((Ev.bucketDeleted dbid ∈ new) ↔
        (∀ t ∈ l.tasks, t.bucketID ∈ l.buckets)) := by
  unfold runList
  obtain ⟨sta, na, hca, ha⟩ := createOp_allNone _ st h
  obtain ⟨hpa, _, hna, hna2⟩ := createOp_ok_spec _ _ _ _ hca
  rw [hca]
  dsimp only
  obtain ⟨stb, nb, hcb, hb⟩ := createOp_allNone _ sta ha
  obtain ⟨hpb, _, hnb, hnb2⟩ := createOp_ok_spec _ _ _ _ hcb
  rw [hcb]
  dsimp only
  have hbg : ∃ stc, (if l.hasBackground then
      match createOp (fun i => .fileCreated i) stb with
      | .error e => .error e
      | .ok (st, fileID) =>
        match createOp (fun _ => .listBackgroundSet na fileID) st with
        | .error e => .error e
        | .ok (st, _) => .ok st
    else .ok stb : Except String ImportState) = .ok stc ∧ AllNone stc
      ∧ ExtendsNoDel stb stc := by
    by_cases hbgc : l.hasBackground
    · rw [if_pos hbgc]
      obtain ⟨stc, nc, hcc, hc⟩ := createOp_allNone _ stb hb
      rw [hcc]
      dsimp only
      obtain ⟨std, nd, hcd, hd⟩ := createOp_allNone _ stc hc
      rw [hcd]
      exact ⟨std, rfl, hd, extendsNoDel_trans _ _ _
        (createOp_extends _ _ _ _ hcc (fun i => rfl))
        (createOp_extends _ _ _ _ hcd (fun i => rfl))⟩
    · rw [if_neg hbgc]
      exact ⟨stb, rfl, hb, extendsNoDel_refl stb⟩
  obtain ⟨stc, hcc, hc, hxc⟩ := hbg
  rw [hcc]
  dsimp only
  obtain ⟨std, bm, hfold, hd, hxd, hvals, hkeys⟩ :=
    bucketFold_chars na l.buckets stc [] hc (by simp)
  rw [hfold]
  dsimp only
  obtain ⟨ste, htasks, he, hxe⟩ := taskFold_chars na bm l.tasks std false hd
  rw [htasks]
  dsimp only
  -- the per-task test is equivalent to "this task did not reference an
  -- imported bucket"
  have htest : ∀ t : STask,
      taskNeedsDefaultBucket bm t.bucketID = false ↔ t.bucketID ∈ l.buckets := by
    intro t
    unfold taskNeedsDefaultBucket remapBucketID
    rcases hlk : List.lookup t.bucketID bm with _ | v
    · simp only [hlk, Option.isSome_none, Bool.not_false, Bool.true_or]
      constructor
      · intro hfalse
        cases hfalse
      · intro hmem
        have : (List.lookup t.bucketID bm).isSome = true := by
          rw [lookup_isSome_iff_mem, hkeys]
          simpa using hmem
        rw [hlk] at this
        cases this
    · have hvpos : 0 < v := by
        have hmem : (t.bucketID, v) ∈ bm := mem_of_lookup bm t.bucketID v hlk
        exact hvals _ hmem
      have hmem : t.bucketID ∈ l.buckets := by
        have : (List.lookup t.bucketID bm).isSome = true := by rw [hlk]; rfl
        rw [lookup_isSome_iff_mem, hkeys] at this
        simpa using this
      simp only [hlk, Option.isSome_some, Bool.not_true, Bool.false_or]
      constructor
      · intro _
        exact hmem
      · intro _
        simpa using Nat.pos_iff_ne_zero.mp hvpos
  by_cases hneed : l.tasks.any (fun t => taskNeedsDefaultBucket bm t.bucketID) = true
  · -- some task fell back: the default bucket is kept
    rw [hneed]
    rw [if_neg (by simp)]
    obtain ⟨newc, hpc, hdc⟩ := extendsNoDel_trans _ _ _ hxc
      (extendsNoDel_trans _ _ _ hxd hxe)
    refine ⟨ste, (Ev.listCreated na namespaceID) :: Ev.defaultBucketCreated nb na :: newc,
      na, nb, rfl, he, ?_, by simp, ?_, ?_⟩
    · rw [hpc, hpb, hpa]
      simp [hna, hnb]
    · intro i hi
      simp only [List.mem_cons] at hi
      rcases hi with hh | hh | hh
      · cases hh
      · cases hh
      · exact absurd (hdc _ hh) (by simp [isBucketDeletion])
    · simp only [List.mem_cons]
      constructor
      · intro hh
        rcases hh with hh | hh | hh
        · cases hh
        · cases hh
        · exact absurd (hdc _ hh) (by simp [isBucketDeletion])
      · intro hall
        exfalso
        simp only [List.any_eq_true] at hneed
        obtain ⟨t, hmem, htn⟩ := hneed
        have := (htest t).mpr (hall t hmem)
        rw [this] at htn
        cases htn
  · -- every task referenced an imported bucket: the default bucket is
    -- deleted
    simp only [Bool.not_eq_true] at hneed
    rw [hneed]
    rw [if_pos (by simp)]
    obtain ⟨stf, nf, hcf, hf⟩ := createOp_allNone _ ste he
    obtain ⟨hpf, _, _, _⟩ := createOp_ok_spec _ _ _ _ hcf
    rw [hcf]
    dsimp only
    obtain ⟨newc, hpc, hdc⟩ := extendsNoDel_trans _ _ _ hxc
      (extendsNoDel_trans _ _ _ hxd hxe)
    refine ⟨stf, Ev.listCreated na namespaceID :: Ev.defaultBucketCreated nb na ::
      (newc ++ [Ev.bucketDeleted nb]), na, nb, rfl, hf, ?_, by simp, ?_, ?_⟩
    · rw [hpf, hpc, hpb, hpa]
      simp [hna, hnb]
    · intro i hi
      simp only [List.mem_cons, List.mem_append] at hi
      rcases hi with hh | hh | hh | hh
      · cases hh
      · cases hh
      · exact absurd (hdc _ hh) (by simp [isBucketDeletion])
      · simpa using hh
    · constructor
      · intro _
        intro t hmem
        apply (htest t).mp
        rw [List.any_eq_false] at hneed
        simpa using hneed t hmem
      · intro _
        simp

theorem runList_allNone (namespaceID : Nat) (st : ImportState) (l : SList)
    (h : AllNone st) :
    ∃ st2, runList namespaceID st l = .ok st2 ∧ AllNone st2 := by
  obtain ⟨st2, new, listID, dbid, hok, h2, _⟩ := runList_chars namespaceID st l h
  exact ⟨st2, hok, h2⟩

theorem runNamespace_allNone (st : ImportState) (n : SNamespace)
    (h : AllNone st) :
    ∃ st2, runNamespace st n = .ok st2 ∧ AllNone st2 := by
  unfold runNamespace
  obtain ⟨sta, na, hca, ha⟩ := createOp_allNone _ st h
  rw [hca]
  exact foldlM_ok_of_all _ AllNone
    (fun st l hst => runList_allNone na st l hst) n.lists sta ha

theorem runStructure_allNone (str : List SNamespace) (st : ImportState)
    (h : AllNone st) :
    ∃ st2, runStructure str st = .ok st2 ∧ AllNone st2 :=
  foldlM_ok_of_all _ AllNone (fun st n hst => runNamespace_allNone st n hst)
    str st h

/-! ## Claim theorems: structure importer -/

/-- C8: `InsertFromStructure` is all-or-nothing: whenever any step of the
walk fails, the whole transaction is rolled back — the returned database
equals the initial one, no entity created earlier in the import persists —
and that step's error is returned; the pending creations are committed
exactly when the whole walk succeeds, which it does whenever every
collaborator call succeeds. -/
theorem insertFromStructure_transactional (str : List SNamespace)
    (oracle : List (Option String)) (db : List Ev) :
    (∀ e, runStructure str { oracle := oracle, nextID := 0, pending := [], labelMap := [] }
        = .error e → InsertFromStructure str oracle db = (some e, db)) ∧
    (∀ st2, runStructure str { oracle := oracle, nextID := 0, pending := [], labelMap := [] }
        = .ok st2 → InsertFromStructure str oracle db = (none, db ++ st2.pending)) ∧
    ((∀ x ∈ oracle, x = none) →
      ∃ st2, runStructure str { oracle := oracle, nextID := 0, pending := [], labelMap := [] }
          = .ok st2 ∧
        InsertFromStructure str oracle db = (none, db ++ st2.pending)) := by
  refine ⟨?_, ?_, ?_⟩
  · intro e he
    unfold InsertFromStructure
    rw [he]
  · intro st2 h2
    unfold InsertFromStructure
    rw [h2]
  · intro hall
    obtain ⟨st2, hok, _⟩ := runStructure_allNone str
      { oracle := oracle, nextID := 0, pending := [], labelMap := [] }
      (by intro x hx; exact hall x hx)
    refine ⟨st2, hok, ?_⟩
    unfold InsertFromStructure
    rw [hok]

/-- C8 witness: with a collaborator failure injected at the second call
the import returns that error and leaves the database untouched; with no
failures it commits. -/
theorem insertFromStructure_transactional_witness :
    InsertFromStructure demoStructure [none, some "boom"] [Ev.namespaceCreated 99]
      = (some "boom", [Ev.namespaceCreated 99]) ∧
    (∃ st2, runStructure demoStructure
        { oracle := [], nextID := 0, pending := [], labelMap := [] } = .ok st2 ∧
      InsertFromStructure demoStructure [] [] = (none, [] ++ st2.pending)) := by
  constructor
  · exact (insertFromStructure_transactional demoStructure [none, some "boom"]
      [Ev.namespaceCreated 99]).1 "boom" rfl
  · exact (insertFromStructure_transactional demoStructure [] []).2.2
      (by intro x hx; cases hx)

/-- C9 (amended): during a successful import, for each imported list the
auto-created default bucket is deleted precisely when every imported task
referenced an imported bucket — i.e. when no task fell back to the
auto-created default bucket; if some task fell back, the default bucket is
kept. (The spec states the opposite condition.) Only the default bucket is
ever deleted. -/
theorem default_bucket_deleted_iff (namespaceID : Nat) (st : ImportState)
    (l : SList) (h : AllNone st) :
    ∃ st2 new listID dbid,
      runList namespaceID st l = .ok st2 ∧ AllNone st2 ∧
      st2.pending = st.pending ++ new ∧
      Ev.defaultBucketCreated dbid listID ∈ new ∧
      (∀ i, Ev.bucketDeleted i ∈ new → i = dbid) ∧
      ((Ev.bucketDeleted dbid ∈ new) ↔
        (∀ t ∈ l.tasks, t.bucketID ∈ l.buckets)) :=
  runList_chars namespaceID st l h

/-- C9 counterexample: importing `listAllBucketed`, the task referenced an
imported bucket (so the spec's condition "no imported task referenced a
bucket" is false, and under the claim the default bucket would be kept),
yet the import deletes the auto-created default bucket (id 3). -/
theorem default_bucket_deletion_counterexample :
    (listAllBucketed.tasks.any
      (fun t => listAllBucketed.buckets.contains t.bucketID) = true) ∧
    Ev.bucketDeleted 3 ∈ (InsertFromStructure [{ lists := [listAllBucketed] }] [] []).2 := by
  constructor
  · decide
  · decide

/-- C9 witness: the amended characterization applied to the concrete
list. -/
theorem default_bucket_deleted_iff_witness :
    ∃ st2 new listID dbid,
      runList 1 { oracle := [], nextID := 1, pending := [], labelMap := [] }
          listAllBucketed = .ok st2 ∧ AllNone st2 ∧
      st2.pending = [] ++ new ∧
      Ev.defaultBucketCreated dbid listID ∈ new ∧
      (∀ i, Ev.bucketDeleted i ∈ new → i = dbid) ∧
      ((Ev.bucketDeleted dbid ∈ new) ↔
        (∀ t ∈ listAllBucketed.tasks, t.bucketID ∈ listAllBucketed.buckets)) :=
  default_bucket_deleted_iff 1 _ listAllBucketed (by intro x hx; cases hx)

end Vikunja

